import Mathlib

/-!
Verification of the `ai-ecosystem-simulator` repository against its
natural-language specification.

The repository ships two concatenated variants of a Socket.io bridge server
(`src/server/index.js`) plus a React dashboard.  The multi-agent environment
engine itself (the Python `env_logic_social.py`) is not part of the reviewed
sources, so the engine is modelled here directly from the specification text
(definitions carrying a `Modelled from the spec:` doc comment), while the
bridge server is embedded from the JavaScript source.
-/

/-! ## Part 1: the Socket.io bridge server (`src/server/index.js`)

The file concatenates two variants of the same server.  Both keep two pieces
of mutable state, `latestSimulationState` and `episodeHistory`, react to the
Python client's `simulation_update` and `episode_complete` events, and serve
React clients on connection and on `request_update`.  JSON payloads are
modelled as association lists over an abstract value type `V`; the JS object
spread `{...data, timestamp: Date.now()}` becomes `setTimestamp`.
-/

namespace Bridge

/-- A JSON object payload: an association list of field names to values,
mirroring a JS object's own enumerable fields in insertion order. -/
abbrev Payload (V : Type) := List (String × V)

/-- Field lookup on a payload (first binding wins, as in a JS object whose
keys are unique). -/
def getField {V : Type} (p : Payload V) (k : String) : Option V :=
  (p.find? (fun kv => kv.1 == k)).map (·.2)

/-- The key set of a payload. -/
def keys {V : Type} (p : Payload V) : List String := p.map (·.1)

/-- JS spread `{...data, timestamp: t}`: if `data` already has a `timestamp`
field its value is replaced in place, otherwise a `timestamp` field is
appended after all existing fields. -/
def setTimestamp {V : Type} (p : Payload V) (t : V) : Payload V :=
  if p.any (fun kv => kv.1 == "timestamp") then
    p.map (fun kv => if kv.1 == "timestamp" then (kv.1, t) else kv)
  else
    p ++ [("timestamp", t)]

/-- Events the connection handlers of the server react to.  `simUpdate`
carries the value `Date.now()` evaluated when the handler runs. -/
inductive InEvent (V : Type) where
  | simUpdate (data : Payload V) (now : V)
  | episodeComplete (data : Payload V)
  | reactConnect
  | requestUpdate
deriving DecidableEq

/-- Messages the server sends to React clients: `broadcast` is
`socket.broadcast.emit` (to all other connected clients), `emit` is
`socket.emit` (to the triggering client only), `emitList` is an emit whose
payload is an array of payloads (variant 2's `history_update`). -/
inductive OutMsg (V : Type) where
  | broadcast (name : String) (data : Payload V)
  | emit (name : String) (data : Payload V)
  | emitList (name : String) (data : List (Payload V))
deriving DecidableEq

/-- The server's mutable module-level state. -/
structure SrvState (V : Type) where
  latestSimulationState : Option (Payload V)
  episodeHistory : List (Payload V)
deriving DecidableEq

/-- `let episodeHistory = []` / `let latestSimulationState = null`. -/
def initState (V : Type) : SrvState V := ⟨none, []⟩

/-- `l.slice(-n)` on a JS array: the last `n` elements (the whole array when
it is shorter than `n`). -/
def lastN {α : Type} (n : Nat) (l : List α) : List α :=
  l.drop (l.length - n)

/-- `episodeHistory.push(data); if (episodeHistory.length > 100)
episodeHistory = episodeHistory.slice(-100)` — shared by both variants. -/
def pushEpisode {V : Type} (h : List (Payload V)) (d : Payload V) :
    List (Payload V) :=
  let h' := h ++ [d]
  if h'.length > 100 then lastN 100 h' else h'

/-- One handler invocation of server variant 1 (lines 30–150 of
`src/server/index.js`): returns the updated module state and the list of
messages sent to React clients, in order. -/
def stepV1 {V : Type} (s : SrvState V) : InEvent V → SrvState V × List (OutMsg V)
  | .simUpdate d now =>
      let ls := setTimestamp d now
      ({ s with latestSimulationState := some ls },
       [.broadcast "state_update" ls])
  | .episodeComplete d =>
      ({ s with episodeHistory := pushEpisode s.episodeHistory d },
       [.broadcast "episode_complete" d])
  | .reactConnect =>
      (s,
       (match s.latestSimulationState with
        | some ls => [.emit "state_update" ls]
        | none => []) ++
       (if s.episodeHistory.length > 0 then
          (lastN 20 s.episodeHistory).map (.emit "episode_complete")
        else []))
  | .requestUpdate =>
      (s,
       (match s.latestSimulationState with
        | some ls => [.emit "state_update" ls]
        | none => []) ++
       (if s.episodeHistory.length > 0 then
          (lastN 20 s.episodeHistory).map (.emit "episode_complete")
        else []))

/-- One handler invocation of server variant 2 (the second concatenated
server in `src/server/index.js`, lines 210–333). -/
def stepV2 {V : Type} (s : SrvState V) : InEvent V → SrvState V × List (OutMsg V)
  | .simUpdate d now =>
      let ls := setTimestamp d now
      ({ s with latestSimulationState := some ls },
       [.broadcast "state_update" ls])
  | .episodeComplete d =>
      ({ s with episodeHistory := pushEpisode s.episodeHistory d },
       [.broadcast "episode_summary" d])
  | .reactConnect =>
      (s,
       (match s.latestSimulationState with
        | some ls => [.emit "state_update" ls]
        | none => []) ++
       [.emitList "history_update" (lastN 20 s.episodeHistory)])
  | .requestUpdate =>
      (s,
       match s.latestSimulationState with
       | some ls => [.emit "state_update" ls]
       | none => [])

/-- Run a sequence of handler invocations from a state, collecting all
messages sent. -/
def runFrom {V : Type}
    (step : SrvState V → InEvent V → SrvState V × List (OutMsg V)) :
    SrvState V → List (InEvent V) → SrvState V × List (OutMsg V)
  | s, [] => (s, [])
  | s, e :: es =>
      let (s', out) := step s e
      let (s'', outs) := runFrom step s' es
      (s'', out ++ outs)

/-- Run variant 1 from the initial state. -/
def runV1 {V : Type} (evs : List (InEvent V)) : SrvState V × List (OutMsg V) :=
  runFrom stepV1 (initState V) evs

/-- Run variant 2 from the initial state. -/
def runV2 {V : Type} (evs : List (InEvent V)) : SrvState V × List (OutMsg V) :=
  runFrom stepV2 (initState V) evs

/-- The payloads of the `episode_complete` events received from the Python
client in an event sequence. -/
def receivedEpisodes {V : Type} : List (InEvent V) → List (Payload V)
  | [] => []
  | .episodeComplete d :: es => d :: receivedEpisodes es
  | _ :: es => receivedEpisodes es

/-- The payload of a message when it is a summary event of variant 1
(event name `episode_complete`, whether broadcast or sent to one client). -/
def summaryPayloadV1 {V : Type} : OutMsg V → Option (Payload V)
  | .broadcast n d => if n == "episode_complete" then some d else none
  | .emit n d => if n == "episode_complete" then some d else none
  | .emitList _ _ => none

/-- Whether a message is a broadcast of variant 1's summary event. -/
def isBroadcastSummaryV1 {V : Type} : OutMsg V → Bool
  | .broadcast n _ => n == "episode_complete"
  | _ => false

/-- Number of broadcast summary events of variant 1 in a message list. -/
def broadcastSummaryCountV1 {V : Type} (outs : List (OutMsg V)) : Nat :=
  outs.countP isBroadcastSummaryV1

/-- The `GET /api/history` response body: the last 50 episode summaries and
the latest simulation state (both variants execute the same code). -/
def apiHistory {V : Type} (s : SrvState V) :
    List (Payload V) × Option (Payload V) :=
  (lastN 50 s.episodeHistory, s.latestSimulationState)

/-- Variant 2's periodic `setInterval` cleanup: re-trim the history to the
last 100 entries. -/
def periodicCleanup {V : Type} (s : SrvState V) : SrvState V :=
  if s.episodeHistory.length > 100 then
    { s with episodeHistory := lastN 100 s.episodeHistory }
  else s

theorem lastN_suffix {α : Type} (n : Nat) (l : List α) : lastN n l <:+ l :=
  List.drop_suffix _ l

theorem lastN_length_le {α : Type} (n : Nat) (l : List α) :
    (lastN n l).length ≤ n := by
  simp only [lastN, List.length_drop]
  omega

theorem isSuffix_append_right {α : Type} {a b : List α} (c : List α)
    (h : a <:+ b) : a ++ c <:+ b ++ c := by
  obtain ⟨t, rfl⟩ := h; exact ⟨t, by simp⟩

theorem pushEpisode_length {V : Type} (h : List (Payload V)) (d : Payload V) :
    (pushEpisode h d).length ≤ 100 := by
  simp only [pushEpisode]
  split
  · exact lastN_length_le 100 _
  · omega

theorem pushEpisode_suffix {V : Type} (h : List (Payload V)) (d : Payload V) :
    pushEpisode h d <:+ h ++ [d] := by
  simp only [pushEpisode]
  split
  · exact lastN_suffix 100 _
  · exact List.suffix_rfl

/-- Both variants transform the module-level state identically on every
handler invocation. -/
theorem step_state_eq {V : Type} (s : SrvState V) (e : InEvent V) :
    (stepV1 s e).1 = (stepV2 s e).1 := by
  cases e <;> rfl

theorem runFrom_state_eq {V : Type} (evs : List (InEvent V)) (s : SrvState V) :
    (runFrom stepV1 s evs).1 = (runFrom stepV2 s evs).1 := by
  induction evs generalizing s with
  | nil => rfl
  | cons e es ih =>
      simp only [runFrom]
      rw [ih, step_state_eq]

/-- The history after any run of variant 1 handlers has at most 100 entries
(provided it started that way). -/
theorem runFromV1_history_length {V : Type} (evs : List (InEvent V))
    (s : SrvState V) (hs : s.episodeHistory.length ≤ 100) :
    (runFrom stepV1 s evs).1.episodeHistory.length ≤ 100 := by
  induction evs generalizing s with
  | nil => exact hs
  | cons e es ih =>
      simp only [runFrom]
      apply ih
      cases e with
      | simUpdate d now => exact hs
      | episodeComplete d => exact pushEpisode_length _ _
      | reactConnect => exact hs
      | requestUpdate => exact hs

/-- The history after any run of variant 1 handlers is a suffix of the
starting history followed by the received episode payloads. -/
theorem runFromV1_history_suffix {V : Type} (evs : List (InEvent V))
    (s : SrvState V) :
    (runFrom stepV1 s evs).1.episodeHistory <:+
      s.episodeHistory ++ receivedEpisodes evs := by
  induction evs generalizing s with
  | nil => simp [runFrom, receivedEpisodes]
  | cons e es ih =>
      simp only [runFrom]
      cases e with
      | simUpdate d now => exact ih _
      | episodeComplete d =>
          refine List.IsSuffix.trans (ih _) ?_
          have h1 := isSuffix_append_right (receivedEpisodes es)
            (pushEpisode_suffix s.episodeHistory d)
          simpa [receivedEpisodes] using h1
      | reactConnect => exact ih _
      | requestUpdate => exact ih _

/-- Every summary event (name `episode_complete`) that variant 1 sends during
a run carries a payload that is either in the starting history or among the
received `episode_complete` payloads. -/
theorem runFromV1_summary_sources {V : Type} (evs : List (InEvent V))
    (s : SrvState V) :
    ∀ msg ∈ (runFrom stepV1 s evs).2, ∀ p, summaryPayloadV1 msg = some p →
      p ∈ s.episodeHistory ∨ p ∈ receivedEpisodes evs := by
  induction evs generalizing s with
  | nil => intro msg hmsg; simp [runFrom] at hmsg
  | cons e es ih =>
      intro msg hmsg p hp
      simp only [runFrom, List.mem_append] at hmsg
      rcases hmsg with hout | houts
      · cases e with
        | simUpdate d now =>
            simp only [stepV1, List.mem_singleton] at hout
            subst hout
            simp [summaryPayloadV1] at hp
        | episodeComplete d =>
            simp only [stepV1, List.mem_singleton] at hout
            subst hout
            simp only [summaryPayloadV1] at hp
            rw [if_pos (by rfl)] at hp
            right
            simp [receivedEpisodes, ← Option.some_inj.mp hp]
        | reactConnect =>
            simp only [stepV1, List.mem_append] at hout
            rcases hout with hst | hrep
            · rcases hlat : s.latestSimulationState with _ | ls <;>
                rw [hlat] at hst <;> simp at hst
              subst hst
              simp [summaryPayloadV1] at hp
            · rcases hhist : (s.episodeHistory.length > 0 : Bool) with _ | _
              · rw [if_neg (by simpa using hhist)] at hrep
                simp at hrep
              · rw [if_pos (by simpa using hhist)] at hrep
                simp only [List.mem_map] at hrep
                obtain ⟨q, hq, rfl⟩ := hrep
                simp only [summaryPayloadV1] at hp
                rw [if_pos (by rfl)] at hp
                left
                rw [← Option.some_inj.mp hp]
                exact (lastN_suffix 20 _).subset hq
        | requestUpdate =>
            simp only [stepV1, List.mem_append] at hout
            rcases hout with hst | hrep
            · rcases hlat : s.latestSimulationState with _ | ls <;>
                rw [hlat] at hst <;> simp at hst
              subst hst
              simp [summaryPayloadV1] at hp
            · rcases hhist : (s.episodeHistory.length > 0 : Bool) with _ | _
              · rw [if_neg (by simpa using hhist)] at hrep
                simp at hrep
              · rw [if_pos (by simpa using hhist)] at hrep
                simp only [List.mem_map] at hrep
                obtain ⟨q, hq, rfl⟩ := hrep
                simp only [summaryPayloadV1] at hp
                rw [if_pos (by rfl)] at hp
                left
                rw [← Option.some_inj.mp hp]
                exact (lastN_suffix 20 _).subset hq
      · have := ih (stepV1 s e).1 msg houts p hp
        rcases this with hin | hin
        · cases e with
          | simUpdate d now => exact Or.inl hin
          | episodeComplete d =>
              have hsub := (pushEpisode_suffix s.episodeHistory d).subset hin
              rw [List.mem_append] at hsub
              rcases hsub with h1 | h1
              · exact Or.inl h1
              · right
                simp only [List.mem_singleton] at h1
                simp [receivedEpisodes, h1]
          | reactConnect => exact Or.inl hin
          | requestUpdate => exact Or.inl hin
        · cases e with
          | simUpdate d now => right; simpa [receivedEpisodes] using hin
          | episodeComplete d => right; simp [receivedEpisodes, hin]
          | reactConnect => right; simpa [receivedEpisodes] using hin
          | requestUpdate => right; simpa [receivedEpisodes] using hin

/-- Variant 1 broadcasts exactly one summary event per received
`episode_complete` event, in any run. -/
theorem isBroadcastSummaryV1_emit {V : Type} (n : String) (d : Payload V) :
    isBroadcastSummaryV1 (OutMsg.emit n d) = false := rfl

/-- The messages that variant 1 sends to a connecting or update-requesting
React client contain no broadcast summary. -/
theorem stepV1_react_no_broadcast {V : Type} (s : SrvState V) (e : InEvent V)
    (he : e = InEvent.reactConnect ∨ e = InEvent.requestUpdate) :
    broadcastSummaryCountV1 (stepV1 s e).2 = 0 := by
  have hmain : broadcastSummaryCountV1
      (((match s.latestSimulationState with
         | some ls => [OutMsg.emit "state_update" ls]
         | none => ([] : List (OutMsg V))) ++
        (if s.episodeHistory.length > 0 then
           (lastN 20 s.episodeHistory).map (OutMsg.emit "episode_complete")
         else []))) = 0 := by
    simp only [broadcastSummaryCountV1, List.countP_append]
    have h1 : List.countP isBroadcastSummaryV1
        (match s.latestSimulationState with
         | some ls => [OutMsg.emit "state_update" ls]
         | none => ([] : List (OutMsg V))) = 0 := by
      rcases s.latestSimulationState with _ | ls <;>
        simp [List.countP_cons, isBroadcastSummaryV1_emit]
    have h2 : List.countP isBroadcastSummaryV1
        (if s.episodeHistory.length > 0 then
           (lastN 20 s.episodeHistory).map
             (OutMsg.emit (V := V) "episode_complete")
         else []) = 0 := by
      split
      · simp [List.countP_map, Function.comp, isBroadcastSummaryV1_emit]
      · simp
    omega
  rcases he with rfl | rfl
  · exact hmain
  · exact hmain

/-- Variant 1 broadcasts exactly one summary event per received
`episode_complete` event, in any run. -/
theorem runFromV1_broadcast_count {V : Type} (evs : List (InEvent V))
    (s : SrvState V) :
    broadcastSummaryCountV1 (runFrom stepV1 s evs).2 =
      (receivedEpisodes evs).length := by
  induction evs generalizing s with
  | nil => simp [runFrom, receivedEpisodes, broadcastSummaryCountV1]
  | cons e es ih =>
      have hsplit : broadcastSummaryCountV1 (runFrom stepV1 s (e :: es)).2 =
          broadcastSummaryCountV1 (stepV1 s e).2 +
            broadcastSummaryCountV1 (runFrom stepV1 (stepV1 s e).1 es).2 := by
        simp [runFrom, broadcastSummaryCountV1, List.countP_append]
      rw [hsplit, ih]
      cases e with
      | simUpdate d now =>
          simp [stepV1, receivedEpisodes, broadcastSummaryCountV1,
            List.countP_cons, isBroadcastSummaryV1]
      | episodeComplete d =>
          simp only [stepV1, receivedEpisodes, broadcastSummaryCountV1,
            List.countP_cons, List.countP_nil, List.length_cons]
          simp [isBroadcastSummaryV1]
          omega
      | reactConnect =>
          rw [stepV1_react_no_broadcast s _ (Or.inl rfl)]
          simp [receivedEpisodes]
      | requestUpdate =>
          rw [stepV1_react_no_broadcast s _ (Or.inr rfl)]
          simp [receivedEpisodes]

theorem getField_nil {V : Type} (k : String) :
    getField ([] : Payload V) k = none := rfl

theorem getField_cons {V : Type} (kv : String × V) (p : Payload V)
    (k : String) :
    getField (kv :: p) k =
      if kv.1 == k then some kv.2 else getField p k := by
  simp only [getField, List.find?]
  rcases h : (kv.1 == k) with _ | _ <;> simp [h]

/-- Appending a fresh `timestamp` field does not change any other field. -/
theorem getField_append_of_ne {V : Type} (p : Payload V) (t : V) (k : String)
    (hk : ¬ k = "timestamp") :
    getField (p ++ [("timestamp", t)]) k = getField p k := by
  induction p with
  | nil =>
      have hne : ¬ ((("timestamp", t).1 == k) = true) := by
        simp only [beq_iff_eq]
        exact fun hcontra => hk hcontra.symm
      rw [List.nil_append, getField_cons, getField_nil, if_neg hne]
  | cons hd tl ih =>
      rw [List.cons_append, getField_cons, getField_cons, ih]

theorem getField_append_timestamp {V : Type} (p : Payload V) (t : V)
    (h : getField p "timestamp" = none) :
    getField (p ++ [("timestamp", t)]) "timestamp" = some t := by
  induction p with
  | nil => rfl
  | cons hd tl ih =>
      rw [getField_cons] at h
      rw [List.cons_append, getField_cons]
      by_cases hb : (hd.1 == "timestamp") = true
      · rw [if_pos hb] at h
        exact absurd h (by simp)
      · rw [if_neg hb] at h
        rw [if_neg hb]
        exact ih h

theorem any_timestamp_of_getField_none {V : Type} (p : Payload V)
    (h : getField p "timestamp" = none) :
    p.any (fun kv => kv.1 == "timestamp") = false := by
  induction p with
  | nil => rfl
  | cons hd tl ih =>
      rw [getField_cons] at h
      by_cases hb : (hd.1 == "timestamp") = true
      · rw [if_pos hb] at h
        exact absurd h (by simp)
      · rw [if_neg hb] at h
        simp only [Bool.not_eq_true] at hb
        simp [List.any_cons, hb, ih h]

/-- When the incoming payload has no `timestamp` field, the JS spread appends
exactly one `timestamp` field after the existing ones. -/
theorem setTimestamp_of_absent {V : Type} (p : Payload V) (t : V)
    (h : getField p "timestamp" = none) :
    setTimestamp p t = p ++ [("timestamp", t)] := by
  simp only [setTimestamp]
  rw [any_timestamp_of_getField_none p h]
  simp

end Bridge

/-- Claim C1: for every `episode_complete` event received from the Python
client, variant 1 of the server broadcasts exactly one summary event
(`episode_complete`) to the other connected clients and appends exactly that
payload to the episode history; and over any run, the number of broadcast
summary events equals the number of received `episode_complete` events, and
every summary event sent to React clients (broadcast or history replay)
carries a payload that was received in some `episode_complete` event. -/
theorem claim_C1 {V : Type} :
    (∀ (s : Bridge.SrvState V) (d : Bridge.Payload V),
       Bridge.stepV1 s (Bridge.InEvent.episodeComplete d) =
         ({ s with episodeHistory := Bridge.pushEpisode s.episodeHistory d },
          [Bridge.OutMsg.broadcast "episode_complete" d])) ∧
    (∀ evs : List (Bridge.InEvent V),
       Bridge.broadcastSummaryCountV1 (Bridge.runV1 evs).2 =
         (Bridge.receivedEpisodes evs).length) ∧
    (∀ (evs : List (Bridge.InEvent V)), ∀ msg ∈ (Bridge.runV1 evs).2,
       ∀ p, Bridge.summaryPayloadV1 msg = some p →
         p ∈ Bridge.receivedEpisodes evs) := by
  refine ⟨fun s d => rfl, fun evs => Bridge.runFromV1_broadcast_count evs _,
    fun evs msg hmsg p hp => ?_⟩
  have h := Bridge.runFromV1_summary_sources evs (Bridge.initState V)
    msg hmsg p hp
  rcases h with h | h
  · simp [Bridge.initState] at h
  · exact h

/-- Witness for C1 at a concrete run: one received episode payload, its
broadcast, and a history replay to a later React client. -/
theorem claim_C1_witness :
    Bridge.OutMsg.broadcast "episode_complete" [("episode", (1 : Nat))] ∈
      (Bridge.runV1 [Bridge.InEvent.episodeComplete [("episode", 1)],
        Bridge.InEvent.reactConnect]).2 ∧
    [("episode", (1 : Nat))] ∈
      Bridge.receivedEpisodes [Bridge.InEvent.episodeComplete [("episode", 1)],
        Bridge.InEvent.reactConnect] :=
  ⟨by decide,
   claim_C1.2.2 [Bridge.InEvent.episodeComplete [("episode", 1)],
     Bridge.InEvent.reactConnect]
     (Bridge.OutMsg.broadcast "episode_complete" [("episode", (1 : Nat))])
     (by decide) [("episode", (1 : Nat))] (by decide)⟩

/-- Claim C2: relaying a `simulation_update` payload that has no `timestamp`
field of its own, both server variants broadcast a `state_update` whose
payload keeps every incoming field unchanged (same key, same value) and
differs only by the one appended `timestamp` field; the same payload is
stored as the latest simulation state. -/
theorem claim_C2 {V : Type} (p : Bridge.Payload V) (t : V)
    (s : Bridge.SrvState V)
    (h : Bridge.getField p "timestamp" = none) :
    Bridge.setTimestamp p t = p ++ [("timestamp", t)] ∧
    (∀ k, ¬ k = "timestamp" →
       Bridge.getField (Bridge.setTimestamp p t) k = Bridge.getField p k) ∧
    Bridge.getField (Bridge.setTimestamp p t) "timestamp" = some t ∧
    (Bridge.stepV1 s (Bridge.InEvent.simUpdate p t)).2 =
      [Bridge.OutMsg.broadcast "state_update" (Bridge.setTimestamp p t)] ∧
    (Bridge.stepV2 s (Bridge.InEvent.simUpdate p t)).2 =
      [Bridge.OutMsg.broadcast "state_update" (Bridge.setTimestamp p t)] ∧
    (Bridge.stepV1 s (Bridge.InEvent.simUpdate p t)).1.latestSimulationState =
      some (Bridge.setTimestamp p t) := by
  have hset := Bridge.setTimestamp_of_absent p t h
  refine ⟨hset, fun k hk => ?_, ?_, rfl, rfl, rfl⟩
  · rw [hset]
    exact Bridge.getField_append_of_ne p t k hk
  · rw [hset]
    exact Bridge.getField_append_timestamp p t h

/-- Witness for C2 on a concrete two-field snapshot payload. -/
theorem claim_C2_witness :
    Bridge.setTimestamp [("episode", (1 : Nat)), ("step", 2)] 9 =
      [("episode", 1), ("step", 2), ("timestamp", 9)] ∧
    Bridge.getField
      (Bridge.setTimestamp [("episode", (1 : Nat)), ("step", 2)] 9) "step" =
      Bridge.getField [("episode", (1 : Nat)), ("step", 2)] "step" ∧
    Bridge.getField
      (Bridge.setTimestamp [("episode", (1 : Nat)), ("step", 2)] 9)
      "timestamp" = some 9 := by
  have h := claim_C2 [("episode", (1 : Nat)), ("step", 2)] 9
    (Bridge.initState Nat) (by decide)
  exact ⟨h.1.trans (by decide), h.2.1 "step" (by decide), h.2.2.1⟩

/-- Claim C9: after any sequence of events the in-memory episode history of
either server variant holds at most 100 entries, and those entries are the
most recent received episode payloads (a suffix of the received sequence);
the `GET /api/history` response holds at most the 50 most recent episode
summaries together with the latest simulation state, and the periodic
cleanup keeps the bound. -/
theorem claim_C9 {V : Type} :
    (∀ evs : List (Bridge.InEvent V),
       (Bridge.runV1 evs).1.episodeHistory.length ≤ 100 ∧
       (Bridge.runV2 evs).1.episodeHistory.length ≤ 100 ∧
       (Bridge.runV1 evs).1.episodeHistory <:+ Bridge.receivedEpisodes evs ∧
       (Bridge.runV2 evs).1.episodeHistory <:+ Bridge.receivedEpisodes evs) ∧
    (∀ s : Bridge.SrvState V,
       (Bridge.apiHistory s).1.length ≤ 50 ∧
       (Bridge.apiHistory s).1 <:+ s.episodeHistory ∧
       (Bridge.apiHistory s).2 = s.latestSimulationState ∧
       (Bridge.periodicCleanup s).episodeHistory.length ≤
         max 100 s.episodeHistory.length) := by
  constructor
  · intro evs
    have hstate := Bridge.runFrom_state_eq evs (Bridge.initState V)
    have hlen : (Bridge.runV1 evs).1.episodeHistory.length ≤ 100 :=
      Bridge.runFromV1_history_length evs (Bridge.initState V) (by simp [Bridge.initState])
    have hsuf : (Bridge.runV1 evs).1.episodeHistory <:+
        Bridge.receivedEpisodes evs := by
      have h := Bridge.runFromV1_history_suffix evs (Bridge.initState V)
      simpa [Bridge.initState] using h
    refine ⟨hlen, ?_, hsuf, ?_⟩
    · simpa [Bridge.runV2, ← hstate] using hlen
    · simpa [Bridge.runV2, ← hstate] using hsuf
  · intro s
    refine ⟨Bridge.lastN_length_le 50 _, Bridge.lastN_suffix 50 _, rfl, ?_⟩
    simp only [Bridge.periodicCleanup]
    split
    · exact le_max_of_le_left (Bridge.lastN_length_le 100 _)
    · exact le_max_of_le_right le_rfl


/-- Counterexample to claim C10: after the same single received
`episode_complete` event, the two server variants emit different messages —
variant 1 broadcasts the summary under the event name `episode_complete`,
variant 2 under `episode_summary` — so they are not observationally
equivalent as relays. -/
theorem claim_C10_counterexample :
    (Bridge.runV1 (V := Nat)
       [Bridge.InEvent.episodeComplete [("episode", 1)]]).2 ≠
    (Bridge.runV2 (V := Nat)
       [Bridge.InEvent.episodeComplete [("episode", 1)]]).2 := by
  decide

/-- Claim C10 as amended: the two server variants maintain identical internal
state on every event sequence and relay `simulation_update` identically; for
a completed episode both broadcast exactly the received payload, but under
different event names (`episode_complete` vs `episode_summary`); and on a
React client connecting, variant 1 replays up to 20 individual
`episode_complete` events after the stored state while variant 2 sends one
`history_update` list — so they agree on state and `state_update` traffic
but are not observationally equivalent on summary and history events. -/
theorem claim_C10_amended {V : Type} :
    (∀ (evs : List (Bridge.InEvent V)) (s : Bridge.SrvState V),
       (Bridge.runFrom Bridge.stepV1 s evs).1 =
         (Bridge.runFrom Bridge.stepV2 s evs).1) ∧
    (∀ (s : Bridge.SrvState V) (d : Bridge.Payload V) (now : V),
       Bridge.stepV1 s (Bridge.InEvent.simUpdate d now) =
         Bridge.stepV2 s (Bridge.InEvent.simUpdate d now)) ∧
    (∀ (s : Bridge.SrvState V) (d : Bridge.Payload V),
       (Bridge.stepV1 s (Bridge.InEvent.episodeComplete d)).2 =
         [Bridge.OutMsg.broadcast "episode_complete" d] ∧
       (Bridge.stepV2 s (Bridge.InEvent.episodeComplete d)).2 =
         [Bridge.OutMsg.broadcast "episode_summary" d]) ∧
    (∀ s : Bridge.SrvState V,
       (Bridge.stepV1 s Bridge.InEvent.reactConnect).2 =
         (match s.latestSimulationState with
          | some ls => [Bridge.OutMsg.emit "state_update" ls]
          | none => []) ++
         (if s.episodeHistory.length > 0 then
            (Bridge.lastN 20 s.episodeHistory).map
              (Bridge.OutMsg.emit "episode_complete")
          else []) ∧
       (Bridge.stepV2 s Bridge.InEvent.reactConnect).2 =
         (match s.latestSimulationState with
          | some ls => [Bridge.OutMsg.emit "state_update" ls]
          | none => []) ++
         [Bridge.OutMsg.emitList "history_update"
            (Bridge.lastN 20 s.episodeHistory)]) :=
  ⟨fun evs s => Bridge.runFrom_state_eq evs s,
   fun _ _ _ => rfl,
   fun _ _ => ⟨rfl, rfl⟩,
   fun _ => ⟨rfl, rfl⟩⟩

/-! ## Part 2: the multi-agent environment engine

The Python environment (`simulation/env_logic_social.py`) is not among the
reviewed sources; only the spec describes it.  The definitions below are
modelled from the specification (§3 data model, §4.1 grid/resource layer,
§4.3 action resolver, §4.4 alliance ledger, §4.5 observation builder) and
each carries a doc comment naming the spec rule it encodes.  Fractional
health is represented with `Rat`, rewards and scores with `Int`, positions
with `Int × Int` on the bounded grid.
-/

namespace Engine

/-- Modelled from the spec: the closed personality enum (§3), fixed at agent
creation. -/
inductive Personality where
  | cooperative
  | aggressive
  | neutral
deriving DecidableEq, Repr

/-- Modelled from the spec: the communication signal enum None/Help/Food/
Danger (§3); `noSignal` stands for None. -/
inductive Signal where
  | noSignal
  | help
  | food
  | danger
deriving DecidableEq, Repr

/-- Modelled from the spec: the discrete action kinds resolved by the Action
Resolver (§4.3 steps 1–9). -/
inductive Action where
  | stay
  | up
  | down
  | left
  | right
  | collect
  | share
  | steal
  | formAlliance
  | maintainAlliance
  | leaveAlliance
  | sendSignal (s : Signal)
  | idle
deriving DecidableEq, Repr

/-- Modelled from the spec: per-agent state of the Agent Registry (§3);
`alive = false` is the incapacitated state, retained in the registry. -/
structure Agent where
  id : Nat
  pos : Int × Int
  health : Rat
  inventory : Nat
  personality : Personality
  allianceId : Option Nat
  signal : Signal
  score : Int
  alive : Bool
deriving DecidableEq, Repr

/-- Modelled from the spec: one alliance of the Alliance Ledger (§3, §4.4);
a dissolved alliance keeps its identity with `active = false` and an empty
member set, and its id is never reused. -/
structure Alliance where
  id : Nat
  members : List Nat
  active : Bool
  lastMaintainedTick : Nat
  formedTick : Nat
deriving DecidableEq, Repr

/-- Modelled from the spec: static configuration — 20×20 grid, constant
target food count, maintenance window W (default 5). -/
structure Config where
  width : Nat
  height : Nat
  foodTarget : Nat
  maintenanceWindow : Nat
deriving DecidableEq, Repr

/-- Modelled from the spec: the authoritative world state (§2, §3). -/
structure World where
  tick : Nat
  agents : List Agent
  obstacles : List (Int × Int)
  food : List (Int × Int)
  alliances : List Alliance
  nextAllianceId : Nat
deriving DecidableEq, Repr

/-- Chebyshev distance between two cells (adjacency means distance ≤ 1). -/
def chebDist (p q : Int × Int) : Nat :=
  max (p.1 - q.1).natAbs (p.2 - q.2).natAbs

/-- Squared Euclidean distance between two cells, used for the documented
nearest-target selection (squaring preserves the ordering). -/
def dist2 (p q : Int × Int) : Nat :=
  (p.1 - q.1).natAbs ^ 2 + (p.2 - q.2).natAbs ^ 2

/-- Whether a cell lies on the bounded W×H grid. -/
def inGrid (cfg : Config) (p : Int × Int) : Bool :=
  decide (0 ≤ p.1) && decide (p.1 < (cfg.width : Int)) &&
  decide (0 ≤ p.2) && decide (p.2 < (cfg.height : Int))

/-- Modelled from the spec: health is clamped to [0,100] (§3, §4.3). -/
def clampHealth (h : Rat) : Rat := max 0 (min 100 h)

/-- Strict lexicographic comparison of (distance, id) keys: the documented
nearest-by-Euclidean-distance, ties-by-lowest-id tie-break order. -/
def better (x y : Nat × Nat) : Bool :=
  x.1 < y.1 || (x.1 == y.1 && x.2 < y.2)

/-- Keep the current best `a` unless the candidate stored in the option has
a strictly better (smaller) key. -/
def pickBetter {α : Type} (key : α → Nat × Nat) (a : α) : Option α → α
  | none => a
  | some b => if better (key b) (key a) then b else a

/-- Deterministic selection of the key-minimal element of a list (the first
one among key-equal elements; keys are injective wherever this is used). -/
def selectMin {α : Type} (key : α → Nat × Nat) : List α → Option α
  | [] => none
  | a :: rest => some (pickBetter key a (selectMin key rest))

/-- Registry lookup by agent id. -/
def findAgent (w : World) (i : Nat) : Option Agent :=
  w.agents.find? (fun a => a.id == i)

/-- Modelled from the spec: displacement of the five movement actions
(Stay/Up/Down/Left/Right); `none` for non-movement actions. -/
def moveDelta : Action → Option (Int × Int)
  | .stay => some (0, 0)
  | .up => some (0, 1)
  | .down => some (0, -1)
  | .left => some (-1, 0)
  | .right => some (1, 0)
  | _ => none

/-- Modelled from the spec (§4.3 step 1): destination checked against the
pre-tick obstacle set (cells off the bounded grid are treated as blocked);
collision ⇒ reward −5, health −2, position unchanged; success ⇒ position
updated, reward −1 step cost.  Returns (new position, reward Δ, health Δ). -/
def moveOutcome (cfg : Config) (w : World) (a : Agent) (act : Action) :
    (Int × Int) × Int × Rat :=
  match moveDelta act with
  | none => (a.pos, 0, 0)
  | some d =>
      let dest := (a.pos.1 + d.1, a.pos.2 + d.2)
      if dest ∈ w.obstacles ∨ inGrid cfg dest = false then
        (a.pos, -5, -2)
      else
        (dest, -1, 0)

/-- The ids of live agents standing on cell `c` that chose Collect. -/
def collectorsAt (w : World) (acts : Nat → Action) (c : Int × Int) : List Nat :=
  (w.agents.filter (fun a =>
    a.alive && decide (acts a.id = Action.collect) && decide (a.pos = c))).map
    (fun a => a.id)

/-- Modelled from the spec: conflicting claims on the same food cell are
settled by the lowest agent id (§2, §9). -/
def collectWinner (w : World) (acts : Nat → Action) (c : Int × Int) :
    Option Nat :=
  (collectorsAt w acts c).min?

/-- Modelled from the spec (§4.3 step 2): an agent collects iff it chose
Collect, its pre-tick cell holds food, and it wins the lowest-id tie-break. -/
def isCollectSuccess (w : World) (acts : Nat → Action) (a : Agent) : Bool :=
  decide (acts a.id = Action.collect) && decide (a.pos ∈ w.food) &&
  decide (collectWinner w acts a.pos = some a.id)

/-- Modelled from the spec (§4.3 step 3): Share candidates are the other
live Cooperative agents with inventory > 0 within Chebyshev distance 1. -/
def shareCandidates (w : World) (a : Agent) : List Agent :=
  w.agents.filter (fun b =>
    b.alive && decide (¬ b.id = a.id) &&
    decide (b.personality = Personality.cooperative) &&
    decide (0 < b.inventory) && decide (chebDist a.pos b.pos ≤ 1))

/-- The documented target choice: nearest by Euclidean distance, ties broken
by lowest agent id. -/
def chooseTarget (p : Int × Int) (cands : List Agent) : Option Agent :=
  selectMin (fun b => (dist2 p b.pos, b.id)) cands

/-- Modelled from the spec (§4.3 step 3): each valid Share action yields one
transfer.  The §8 scenario (inventories (2,0), both Share ⇒ (1,1), both +5)
forces the food to flow from the chosen inventory-holding Cooperative target
to the acting agent, so a transfer is recorded as (giver id, recipient id)
with the giver the selected target.  No valid target ⇒ no-op. -/
def shareTransfers (w : World) (acts : Nat → Action) : List (Nat × Nat) :=
  w.agents.filterMap (fun a =>
    if a.alive = true ∧ acts a.id = Action.share then
      match chooseTarget a.pos (shareCandidates w a) with
      | some b => some (b.id, a.id)
      | none => none
    else none)

/-- Modelled from the spec (§4.3 step 4): Steal candidates are the other
live agents with inventory > 0 within distance 1 (any personality). -/
def stealCandidates (w : World) (a : Agent) : List Agent :=
  w.agents.filter (fun b =>
    b.alive && decide (¬ b.id = a.id) &&
    decide (0 < b.inventory) && decide (chebDist a.pos b.pos ≤ 1))

/-- Modelled from the spec (§4.3 step 4): each valid Steal yields one
transfer (victim id, thief id), all resolved against the pre-tick snapshot
independently; inventories floor at 0 at commit. -/
def stealTransfers (w : World) (acts : Nat → Action) : List (Nat × Nat) :=
  w.agents.filterMap (fun a =>
    if a.alive = true ∧ acts a.id = Action.steal then
      match chooseTarget a.pos (stealCandidates w a) with
      | some b => some (b.id, a.id)
      | none => none
    else none)

/-- Modelled from the spec (§4.3 step 5): eligible alliance-formation
candidates for an agent — adjacent live agents, not in an alliance, that
also chose Form-alliance this tick. -/
def formCandidates (w : World) (acts : Nat → Action) (a : Agent) :
    List Agent :=
  w.agents.filter (fun b =>
    b.alive && decide (¬ b.id = a.id) && decide (b.allianceId = none) &&
    decide (acts b.id = Action.formAlliance) &&
    decide (chebDist a.pos b.pos ≤ 1))

/-- The nearest eligible formation partner (nearest-then-lowest-id). -/
def nearestFormPartner (w : World) (acts : Nat → Action) (a : Agent) :
    Option Agent :=
  chooseTarget a.pos (formCandidates w acts a)

/-- The formation pair generated by one agent: `some (a.id, b.id)` iff `a`
chose Form-alliance while unallied, its nearest eligible candidate is `b`,
the consent is mutual, and `a` carries the lower id (so each pair is
recorded exactly once). -/
def formPairGen (w : World) (acts : Nat → Action) (a : Agent) :
    Option (Nat × Nat) :=
  if a.alive = true ∧ acts a.id = Action.formAlliance ∧ a.allianceId = none
  then
    match nearestFormPartner w acts a with
    | some b =>
        if a.id < b.id ∧ nearestFormPartner w acts b = some a then
          some (a.id, b.id)
        else none
    | none => none
  else none

/-- Modelled from the spec (§4.3 step 5): mutual consent — a pair forms iff
both chose Form-alliance, neither is in an alliance, and each is the other's
nearest eligible candidate. -/
def formPairs (w : World) (acts : Nat → Action) : List (Nat × Nat) :=
  w.agents.filterMap (formPairGen w acts)

/-- The alliance id allocated to the pair containing id `i`, when ids are
handed out sequentially starting at `k`. -/
def pairIdxFrom (i : Nat) (k : Nat) : List (Nat × Nat) → Option Nat
  | [] => none
  | p :: ps => if p.1 = i ∨ p.2 = i then some k else pairIdxFrom i (k + 1) ps

/-- The fresh alliance id assigned to agent id `i` by this tick's
formations, if `i` is part of a formed pair. -/
def pairIdxOf (w : World) (acts : Nat → Action) (i : Nat) : Option Nat :=
  pairIdxFrom i w.nextAllianceId (formPairs w acts)

/-- Modelled from the spec (§4.3 steps 5 and 7): the agent's alliance
reference after the action phases — a freshly allocated id on successful
formation, cleared on Leave, otherwise unchanged.  (Clearing on dissolution
happens against the final ledger below.) -/
def allianceMid (w : World) (acts : Nat → Action) (a : Agent) : Option Nat :=
  match pairIdxOf w acts a.id with
  | some k => some k
  | none =>
      if acts a.id = Action.leaveAlliance then none else a.allianceId

/-- Whether the live agent with id `m` chose Leave-alliance this tick. -/
def isLeaver (w : World) (acts : Nat → Action) (m : Nat) : Bool :=
  match findAgent w m with
  | some a => a.alive && decide (acts a.id = Action.leaveAlliance)
  | none => false

/-- Modelled from the spec (§4.3 step 6): an alliance is maintained this
tick iff one of its live members chose Maintain-alliance. -/
def maintainedNow (w : World) (acts : Nat → Action) (A : Alliance) : Bool :=
  w.agents.any (fun a =>
    a.alive && decide (acts a.id = Action.maintainAlliance) &&
    decide (a.allianceId = some A.id))

/-- Maintain resets the alliance's maintenance timer to the current tick. -/
def applyMaintain (w : World) (acts : Nat → Action) (A : Alliance) :
    Alliance :=
  if maintainedNow w acts A then { A with lastMaintainedTick := w.tick }
  else A

/-- Modelled from the spec (§4.3 step 7, §4.4): leavers are removed; if
membership falls below 2 the alliance dissolves in the same tick
(`active := false`, members cleared), irreversibly. -/
def applyLeave (w : World) (acts : Nat → Action) (A : Alliance) : Alliance :=
  let ms := A.members.filter (fun m => !(isLeaver w acts m))
  if ms.length < 2 then { A with members := [], active := false }
  else { A with members := ms }

/-- A newly formed alliance: fresh id `k`, the two pair members, timers set
to the formation tick (§4.3 step 5). -/
def mkNewAlliance (w : World) (k : Nat) (p : Nat × Nat) : Alliance :=
  { id := k, members := [p.1, p.2], active := true,
    lastMaintainedTick := w.tick, formedTick := w.tick }

/-- The newly formed alliances with sequential ids starting at `k`. -/
def newAlliances (w : World) : Nat → List (Nat × Nat) → List Alliance
  | _, [] => []
  | k, p :: ps => mkNewAlliance w k p :: newAlliances w (k + 1) ps

/-- The alliance ledger after the action phases (maintain, leave, form). -/
def ledgerAfterActions (w : World) (acts : Nat → Action) : List Alliance :=
  (w.alliances.map (fun A => applyLeave w acts (applyMaintain w acts A))) ++
  newAlliances w w.nextAllianceId (formPairs w acts)

/-- Modelled from the spec (§4.3 passive effects): the +0.1 health bonus
applies iff the agent's (post-action) alliance is active and was maintained
within the window W of the current tick. -/
def allianceBonusActive (cfg : Config) (w : World) (acts : Nat → Action)
    (a : Agent) : Bool :=
  match allianceMid w acts a with
  | some i =>
      match (ledgerAfterActions w acts).find? (fun A => A.id == i) with
      | some A =>
          A.active &&
          decide (w.tick - A.lastMaintainedTick ≤ cfg.maintenanceWindow)
      | none => false
  | none => false

/-- Modelled from the spec (§4.3 passive effects): health after the tick —
action deltas, −0.2 universal decay, +0.1 maintained-alliance bonus, clamped
to [0,100]. -/
def healthAfter (cfg : Config) (w : World) (acts : Nat → Action) (a : Agent) :
    Rat :=
  clampHealth (a.health + (moveOutcome cfg w a (acts a.id)).2.2 +
    (if isCollectSuccess w acts a then (10 : Rat) else 0) -
    1/5 + (if allianceBonusActive cfg w acts a then 1/10 else 0))

/-- A live agent survives the tick iff its clamped health stays above 0;
crossing ≤ 0 incapacitates (§4.3). -/
def survives (cfg : Config) (w : World) (acts : Nat → Action) (a : Agent) :
    Bool :=
  a.alive && decide (0 < healthAfter cfg w acts a)

/-- Modelled from the spec (§4.4): members incapacitated this tick are
removed; an alliance left with fewer than 2 members dissolves. -/
def dissolveForDeaths (cfg : Config) (w : World) (acts : Nat → Action)
    (A : Alliance) : Alliance :=
  let ms := A.members.filter (fun m =>
    match findAgent w m with
    | some a => survives cfg w acts a
    | none => false)
  if ms.length < 2 then { A with members := [], active := false }
  else { A with members := ms }

/-- The alliance ledger at tick end. -/
def ledgerFinal (cfg : Config) (w : World) (acts : Nat → Action) :
    List Alliance :=
  (ledgerAfterActions w acts).map (dissolveForDeaths cfg w acts)

/-- Modelled from the spec (§4.4 invariant): an agent's alliance reference
survives the tick only if the final ledger holds that alliance, active and
containing the agent; otherwise it is cleared in the same tick. -/
def allianceIdFinal (cfg : Config) (w : World) (acts : Nat → Action)
    (a : Agent) : Option Nat :=
  match allianceMid w acts a with
  | some i =>
      match (ledgerFinal cfg w acts).find? (fun A => A.id == i) with
      | some A => if A.active = true ∧ a.id ∈ A.members then some i else none
      | none => none
  | none => none

/-- Reward +3 for each agent of a successfully formed pair (§4.3 step 5). -/
def formedReward (w : World) (acts : Nat → Action) (a : Agent) : Int :=
  match pairIdxOf w acts a.id with
  | some _ => 3
  | none => 0

/-- Modelled from the spec: the tick reward of a live agent — movement
cost/collision, +15 collect, +5 to both ends of each share, +10 thief /
−10 victim per steal, +3 formation (§4.3). -/
def rewardOf (cfg : Config) (w : World) (acts : Nat → Action) (a : Agent) :
    Int :=
  (moveOutcome cfg w a (acts a.id)).2.1 +
  (if isCollectSuccess w acts a then 15 else 0) +
  5 * ((shareTransfers w acts).countP (fun p => p.1 == a.id) : Int) +
  5 * ((shareTransfers w acts).countP (fun p => p.2 == a.id) : Int) +
  10 * ((stealTransfers w acts).countP (fun p => p.2 == a.id) : Int) -
  10 * ((stealTransfers w acts).countP (fun p => p.1 == a.id) : Int) +
  formedReward w acts a

/-- Net inventory change of a live agent over the tick (§4.3); the commit
floors at 0. -/
def invDelta (w : World) (acts : Nat → Action) (a : Agent) : Int :=
  (if isCollectSuccess w acts a then 1 else 0) +
  ((shareTransfers w acts).countP (fun p => p.2 == a.id) : Int) -
  ((shareTransfers w acts).countP (fun p => p.1 == a.id) : Int) +
  ((stealTransfers w acts).countP (fun p => p.2 == a.id) : Int) -
  ((stealTransfers w acts).countP (fun p => p.1 == a.id) : Int)

/-- Modelled from the spec (§4.3 step 8): a signal lives one tick — set by
this tick's Send-signal action, otherwise reset to None. -/
def signalAfter (acts : Nat → Action) (a : Agent) : Signal :=
  match acts a.id with
  | Action.sendSignal s => s
  | _ => Signal.noSignal

/-- The committed per-agent state at tick end.  Incapacitated agents are
left untouched (frozen score, excluded from resolution, still registered). -/
def agentAfter (cfg : Config) (w : World) (acts : Nat → Action) (a : Agent) :
    Agent :=
  if a.alive then
    { id := a.id,
      pos := (moveOutcome cfg w a (acts a.id)).1,
      health := healthAfter cfg w acts a,
      inventory := ((a.inventory : Int) + invDelta w acts a).toNat,
      personality := a.personality,
      allianceId :=
        if survives cfg w acts a then allianceIdFinal cfg w acts a else none,
      signal := signalAfter acts a,
      score := a.score + rewardOf cfg w acts a,
      alive := survives cfg w acts a }
  else a

end Engine

namespace Engine

/-- Step events used for metric and resource accounting: one `collected` per
successfully collected cell, and per scheduled replacement either `spawned`
or `spawnSkipped` (grid exhaustion). -/
inductive Ev where
  | collected (c : Int × Int)
  | spawned (c : Int × Int)
  | spawnSkipped
deriving DecidableEq, Repr

/-- Whether a cell keeps its food this tick (no live agent collects it). -/
def cellUncollected (w : World) (acts : Nat → Action) (c : Int × Int) : Bool :=
  (collectorsAt w acts c).isEmpty

/-- The food cells collected this tick. -/
def collectedCells (w : World) (acts : Nat → Action) : List (Int × Int) :=
  w.food.filter (fun c => !(cellUncollected w acts c))

/-- All cells of the bounded grid. -/
def allCells (cfg : Config) : List (Int × Int) :=
  (List.range cfg.width).flatMap (fun x =>
    (List.range cfg.height).map (fun y => ((x : Int), (y : Int))))

/-- Modelled from the spec (§4.1): the cells available to a food spawn —
on the grid, neither an obstacle nor already holding food. -/
def freeCells (cfg : Config) (obstacles fd : List (Int × Int)) :
    List (Int × Int) :=
  (allCells cfg).filter (fun c =>
    decide (c ∉ obstacles) && decide (c ∉ fd))

/-- Modelled from the spec (§4.1): `spawnFood()` places one food unit on a
random free cell (the random draw `r` indexes the free-cell list), and is a
silent no-op when no free cell exists. -/
def spawnFood (cfg : Config) (obstacles fd : List (Int × Int)) (r : Nat) :
    List (Int × Int) :=
  let free := freeCells cfg obstacles fd
  if free.isEmpty then fd
  else fd ++ [free.getD (r % free.length) (0, 0)]

/-- Run the scheduled replacement spawns (one random draw per successful
collection), recording one event per attempt. -/
def spawnLoop (cfg : Config) (obstacles : List (Int × Int)) :
    List (Int × Int) → List Nat → List (Int × Int) × List Ev
  | fd, [] => (fd, [])
  | fd, r :: rs =>
      let free := freeCells cfg obstacles fd
      let ev := if free.isEmpty then Ev.spawnSkipped
                else Ev.spawned (free.getD (r % free.length) (0, 0))
      let next := spawnLoop cfg obstacles (spawnFood cfg obstacles fd r) rs
      (next.1, ev :: next.2)

/-- Result of one tick of the Action Resolver: the committed next world
state, the per-agent reward map, and the event list. -/
structure StepResult where
  world : World
  rewards : Nat → Int
  events : List Ev

/-- Modelled from the spec (§4.3, §5): one tick — all nine action kinds are
resolved against the immutable start-of-tick snapshot `w`, buffered effects
are committed atomically, passive decay/bonus and incapacitation applied,
alliances dissolved when below 2 members, collected food removed and exactly
one replacement spawn scheduled per successful collection.  `rnds` is the
fixed random stream for the spawn draws. -/
def stepWorld (cfg : Config) (w : World) (acts : Nat → Action)
    (rnds : Nat → Nat) : StepResult :=
  let collected := collectedCells w acts
  let foodLeft := w.food.filter (cellUncollected w acts)
  let rands := (List.range collected.length).map rnds
  let spawnRes := spawnLoop cfg w.obstacles foodLeft rands
  { world :=
      { tick := w.tick + 1,
        agents := w.agents.map (agentAfter cfg w acts),
        obstacles := w.obstacles,
        food := spawnRes.1,
        alliances := ledgerFinal cfg w acts,
        nextAllianceId := w.nextAllianceId + (formPairs w acts).length },
    rewards := fun i =>
      match findAgent w i with
      | some a => if a.alive then rewardOf cfg w acts a else 0
      | none => 0,
    events := collected.map Ev.collected ++ spawnRes.2 }

/-- Episode-start data: agent (id, position, personality) triples, obstacle
cells and initial food cells. -/
structure InitData where
  agentStart : List (Nat × (Int × Int) × Personality)
  obstacles : List (Int × Int)
  food : List (Int × Int)
deriving DecidableEq, Repr

/-- Modelled from the spec: agents are created at episode start with full
health (100 HP), empty inventory, no alliance, no signal, zero score. -/
def mkAgent (t : Nat × (Int × Int) × Personality) : Agent :=
  { id := t.1, pos := t.2.1, health := 100, inventory := 0,
    personality := t.2.2, allianceId := none, signal := Signal.noSignal,
    score := 0, alive := true }

/-- The world at episode start (§3 lifecycle). -/
def mkWorld (d : InitData) : World :=
  { tick := 0, agents := d.agentStart.map mkAgent, obstacles := d.obstacles,
    food := d.food, alliances := [], nextAllianceId := 0 }

/-- Well-formedness of episode-start data: distinct agent ids, distinct food
cells disjoint from obstacles, and no more food than the configured count. -/
def ValidInit (cfg : Config) (d : InitData) : Prop :=
  (d.agentStart.map (fun t => t.1)).Nodup ∧
  d.food.Nodup ∧
  (∀ c ∈ d.food, c ∉ d.obstacles) ∧
  d.food.length ≤ cfg.foodTarget

instance (cfg : Config) (d : InitData) : Decidable (ValidInit cfg d) := by
  unfold ValidInit
  infer_instance

/-- The world states reachable over an episode: the start state and every
state obtained by ticking with some action assignment and random stream. -/
inductive Reachable (cfg : Config) : World → Prop where
  | init (d : InitData) : ValidInit cfg d → Reachable cfg (mkWorld d)
  | step (w : World) (acts : Nat → Action) (rnds : Nat → Nat) :
      Reachable cfg w → Reachable cfg (stepWorld cfg w acts rnds).world

end Engine

namespace Engine

/-- Numeric rendering of a flag component. -/
def boolR (b : Bool) : Rat := if b then 1 else 0

/-- One-hot personality encoding (§4.5). -/
def personalityOneHot : Personality → List Rat
  | .cooperative => [1, 0, 0]
  | .aggressive => [0, 1, 0]
  | .neutral => [0, 0, 1]

/-- Modelled from the spec (§4.5): the fixed neighborhood radius for the
neighbor counts and aggregated signal flags ("a fixed radius"). -/
def obsRadius : Nat := 3

/-- The other live agents within the observation radius. -/
def neighborsWithin (w : World) (a : Agent) : List Agent :=
  w.agents.filter (fun b =>
    b.alive && decide (¬ b.id = a.id) &&
    decide (chebDist a.pos b.pos ≤ obsRadius))

/-- The nearest food cell to `p` (nearest by squared Euclidean distance,
ties by list order of the food cells). -/
def nearestFood (w : World) (p : Int × Int) : Option (Int × Int) :=
  selectMin (fun c => (dist2 p c, 0)) w.food

/-- The relative offset of the nearest food, zero when no food exists. -/
def nearestFoodOffset (w : World) (p : Int × Int) : List Rat :=
  match nearestFood w p with
  | some c => [((c.1 - p.1 : Int) : Rat), ((c.2 - p.2 : Int) : Rat)]
  | none => [0, 0]

/-- Occupancy flag of the 3×3 local obstacle block; off-grid cells count as
blocked. -/
def obstacleFlag (cfg : Config) (w : World) (p : Int × Int) (d : Int × Int) :
    Rat :=
  boolR (decide ((p.1 + d.1, p.2 + d.2) ∈ w.obstacles) ||
    !(inGrid cfg (p.1 + d.1, p.2 + d.2)))

/-- Modelled from the spec (§4.5): the Observation Builder — a pure function
of the world snapshot and target agent id producing the fixed 40-component
feature vector: own position (2), normalized health (1), inventory (1),
nearest-food offset (2), personality one-hot (3), in-alliance flag (1),
neighbor counts (3), aggregated signal flags (3), 3×3 obstacle block (9),
zero padding (15).  An unknown id yields the all-zero vector. -/
def buildObservation (cfg : Config) (w : World) (i : Nat) : List Rat :=
  match findAgent w i with
  | none => List.replicate 40 0
  | some a =>
      let nb := neighborsWithin w a
      [(a.pos.1 : Rat), (a.pos.2 : Rat), a.health / 100,
       (a.inventory : Rat)] ++
      nearestFoodOffset w a.pos ++
      personalityOneHot a.personality ++
      [boolR a.allianceId.isSome] ++
      [(nb.length : Rat),
       (nb.countP (fun b => decide (b.personality = .cooperative)) : Rat),
       (nb.countP (fun b => decide (b.personality = .aggressive)) : Rat)] ++
      [boolR (nb.any (fun b => decide (b.signal = .help))),
       boolR (nb.any (fun b => decide (b.signal = .food))),
       boolR (nb.any (fun b => decide (b.signal = .danger)))] ++
      [obstacleFlag cfg w a.pos (-1, -1), obstacleFlag cfg w a.pos (0, -1),
       obstacleFlag cfg w a.pos (1, -1), obstacleFlag cfg w a.pos (-1, 0),
       obstacleFlag cfg w a.pos (0, 0), obstacleFlag cfg w a.pos (1, 0),
       obstacleFlag cfg w a.pos (-1, 1), obstacleFlag cfg w a.pos (0, 1),
       obstacleFlag cfg w a.pos (1, 1)] ++
      List.replicate 15 0

theorem nearestFoodOffset_length (w : World) (p : Int × Int) :
    (nearestFoodOffset w p).length = 2 := by
  unfold nearestFoodOffset
  rcases nearestFood w p with _ | c <;> rfl

theorem personalityOneHot_length (p : Personality) :
    (personalityOneHot p).length = 3 := by
  cases p <;> rfl

end Engine

/-- Claim C5: for every world snapshot and target agent id the Observation
Builder returns a vector of exactly 40 numeric components, and — being a
pure function of the snapshot and the id — any two invocations on the same
arguments return identical vectors. -/
theorem claim_C5 (cfg : Engine.Config) (w : Engine.World) (i : Nat) :
    (Engine.buildObservation cfg w i).length = 40 ∧
    Engine.buildObservation cfg w i = Engine.buildObservation cfg w i := by
  refine ⟨?_, rfl⟩
  unfold Engine.buildObservation
  rcases Engine.findAgent w i with _ | a
  · rfl
  · simp [List.length_append, Engine.nearestFoodOffset_length,
      Engine.personalityOneHot_length]

namespace Engine

theorem clampHealth_nonneg (h : Rat) : 0 ≤ clampHealth h :=
  le_max_left 0 _

theorem clampHealth_le_100 (h : Rat) : clampHealth h ≤ 100 :=
  max_le (by norm_num) (min_le_left _ _)

theorem agentAfter_dead (cfg : Config) (w : World) (acts : Nat → Action)
    (a : Agent) (ha : a.alive = false) : agentAfter cfg w acts a = a := by
  simp [agentAfter, ha]

theorem stepWorld_agents (cfg : Config) (w : World) (acts : Nat → Action)
    (rnds : Nat → Nat) :
    (stepWorld cfg w acts rnds).world.agents =
      w.agents.map (agentAfter cfg w acts) := rfl

/-- Health stays within [0,100] for every agent of every reachable world. -/
def HealthInv (w : World) : Prop :=
  ∀ a ∈ w.agents, 0 ≤ a.health ∧ a.health ≤ 100

theorem healthInv_mkWorld (d : InitData) : HealthInv (mkWorld d) := by
  intro a ha
  simp only [mkWorld, List.mem_map] at ha
  obtain ⟨t, _, rfl⟩ := ha
  constructor
  · simp [mkAgent]
  · simp [mkAgent]

theorem healthInv_step (cfg : Config) (w : World) (acts : Nat → Action)
    (rnds : Nat → Nat) (inv : HealthInv w) :
    HealthInv (stepWorld cfg w acts rnds).world := by
  intro a' ha'
  rw [stepWorld_agents] at ha'
  obtain ⟨a, ha, rfl⟩ := List.mem_map.mp ha'
  by_cases hal : a.alive
  · simp only [agentAfter, if_pos hal]
    exact ⟨clampHealth_nonneg _, clampHealth_le_100 _⟩
  · rw [agentAfter_dead cfg w acts a (by simpa using hal)]
    exact inv a ha

theorem reachable_healthInv {cfg : Config} {w : World}
    (h : Reachable cfg w) : HealthInv w := by
  induction h with
  | init d hd => exact healthInv_mkWorld d
  | step w acts rnds hw ih => exact healthInv_step cfg w acts rnds ih

/-- A tick example configuration and start state used for concrete runs. -/
def cfgEx : Config :=
  { width := 4, height := 4, foodTarget := 1, maintenanceWindow := 5 }

/-- Start data with one cooperative agent and nothing else. -/
def initEx1 : InitData :=
  { agentStart := [(0, ((0 : Int), (0 : Int)), Personality.cooperative)],
    obstacles := [], food := [] }

end Engine

/-- Claim C3: in every reachable world every agent's health lies in [0,100];
an incapacitated agent is left untouched by further ticks (frozen score,
still in the registry), and a live agent whose clamped end-of-tick health
reaches 0 is marked incapacitated in the committed state, with this tick's
rewards still accumulated, while remaining in the registry. -/
theorem claim_C3 {cfg : Engine.Config} {w : Engine.World}
    (h : Engine.Reachable cfg w) :
    (∀ a ∈ w.agents, 0 ≤ a.health ∧ a.health ≤ 100) ∧
    (∀ (acts : Nat → Engine.Action) (rnds : Nat → Nat), ∀ a ∈ w.agents,
       (a.alive = false → Engine.agentAfter cfg w acts a = a ∧
          a ∈ (Engine.stepWorld cfg w acts rnds).world.agents) ∧
       (a.alive = true → Engine.healthAfter cfg w acts a = 0 →
          (Engine.agentAfter cfg w acts a).alive = false ∧
          (Engine.agentAfter cfg w acts a).score =
            a.score + Engine.rewardOf cfg w acts a ∧
          Engine.agentAfter cfg w acts a ∈
            (Engine.stepWorld cfg w acts rnds).world.agents)) := by
  refine ⟨Engine.reachable_healthInv h, fun acts rnds a ha => ⟨?_, ?_⟩⟩
  · intro hdead
    refine ⟨Engine.agentAfter_dead cfg w acts a hdead, ?_⟩
    rw [Engine.stepWorld_agents]
    have := List.mem_map_of_mem (Engine.agentAfter cfg w acts) ha
    rwa [Engine.agentAfter_dead cfg w acts a hdead] at this
  · intro halive hzero
    have hsurv : Engine.survives cfg w acts a = false := by
      simp [Engine.survives, hzero]
    refine ⟨?_, ?_, ?_⟩
    · simp [Engine.agentAfter, halive, hsurv]
    · simp [Engine.agentAfter, halive]
    · rw [Engine.stepWorld_agents]
      exact List.mem_map_of_mem _ ha

/-- Witness for C3 on the one-agent start world. -/
theorem claim_C3_witness :
    Engine.mkAgent (0, ((0 : Int), (0 : Int)), Engine.Personality.cooperative)
      ∈ (Engine.mkWorld Engine.initEx1).agents ∧
    0 ≤ (Engine.mkAgent
      (0, ((0 : Int), (0 : Int)), Engine.Personality.cooperative)).health ∧
    (Engine.mkAgent
      (0, ((0 : Int), (0 : Int)), Engine.Personality.cooperative)).health
      ≤ 100 := by
  have h := claim_C3 (@Engine.Reachable.init Engine.cfgEx
    Engine.initEx1 (by decide))
  have hm : Engine.mkAgent
      (0, ((0 : Int), (0 : Int)), Engine.Personality.cooperative)
      ∈ (Engine.mkWorld Engine.initEx1).agents := by decide
  exact ⟨hm, h.1 _ hm⟩

namespace Engine

theorem better_eq_true_iff (x y : Nat × Nat) :
    better x y = true ↔ (x.1 < y.1 ∨ (x.1 = y.1 ∧ x.2 < y.2)) := by
  simp [better, Bool.or_eq_true, Bool.and_eq_true, beq_iff_eq,
    decide_eq_true_eq]

theorem better_eq_false_iff (x y : Nat × Nat) :
    better x y = false ↔ ¬ (x.1 < y.1 ∨ (x.1 = y.1 ∧ x.2 < y.2)) := by
  rw [← Bool.not_eq_true, better_eq_true_iff]

theorem better_irrefl (x : Nat × Nat) : better x x = false := by
  rw [better_eq_false_iff]
  omega

theorem better_asymm {x y : Nat × Nat} (h : better x y = true) :
    better y x = false := by
  rw [better_eq_true_iff] at h
  rw [better_eq_false_iff]
  omega

theorem better_none_trans {x y z : Nat × Nat} (hxy : better x y = false)
    (hyz : better y z = false) : better x z = false := by
  rw [better_eq_false_iff] at hxy hyz ⊢
  omega

theorem better_antisymm {x y : Nat × Nat} (hxy : better x y = false)
    (hyx : better y x = false) : x = y := by
  rw [better_eq_false_iff] at hxy hyx
  obtain ⟨x1, x2⟩ := x
  obtain ⟨y1, y2⟩ := y
  simp only [Prod.mk.injEq]
  constructor <;> omega

theorem selectMin_mem {α : Type} (key : α → Nat × Nat) (l : List α) (b : α)
    (h : selectMin key l = some b) : b ∈ l := by
  induction l generalizing b with
  | nil => simp [selectMin] at h
  | cons a rest ih =>
      rw [selectMin, Option.some_inj] at h
      rcases hrest : selectMin key rest with _ | c <;> rw [hrest] at h
      · rw [pickBetter] at h
        subst h
        exact List.mem_cons_self a rest
      · rw [pickBetter] at h
        split at h
        · subst h
          exact List.mem_cons_of_mem a (ih _ hrest)
        · subst h
          exact List.mem_cons_self a rest

theorem selectMin_eq_none_iff {α : Type} (key : α → Nat × Nat) (l : List α) :
    selectMin key l = none ↔ l = [] := by
  cases l with
  | nil => simp [selectMin]
  | cons a rest => simp [selectMin]

theorem selectMin_min {α : Type} (key : α → Nat × Nat) (l : List α) (b : α)
    (h : selectMin key l = some b) :
    ∀ c ∈ l, better (key c) (key b) = false := by
  induction l generalizing b with
  | nil => simp [selectMin] at h
  | cons a rest ih =>
      rw [selectMin, Option.some_inj] at h
      intro c hc
      rcases hrest : selectMin key rest with _ | m <;> rw [hrest] at h
      · rw [pickBetter] at h
        subst h
        have : rest = [] := (selectMin_eq_none_iff key rest).mp hrest
        subst this
        simp only [List.mem_singleton] at hc
        subst hc
        exact better_irrefl _
      · rw [pickBetter] at h
        split at h
        · rename_i hbm
          subst h
          rcases List.mem_cons.mp hc with rfl | hc'
          · exact better_asymm hbm
          · exact ih _ hrest c hc'
        · rename_i hbm
          subst h
          rcases List.mem_cons.mp hc with rfl | hc'
          · exact better_irrefl _
          · have hcm := ih _ hrest c hc'
            have hma : better (key m) (key a) = false := by
              rcases hm2 : better (key m) (key a) with _ | _
              · rfl
              · exact absurd hm2 hbm
            exact better_none_trans hcm hma

theorem selectMin_perm {α : Type} (key : α → Nat × Nat) {l l' : List α}
    (hp : List.Perm l l')
    (hinj : ∀ x ∈ l, ∀ y ∈ l, key x = key y → x = y) :
    selectMin key l = selectMin key l' := by
  rcases h1 : selectMin key l with _ | b
  · rcases h2 : selectMin key l' with _ | b'
    · rfl
    · have hl : l = [] := (selectMin_eq_none_iff key l).mp h1
      subst hl
      have hl' : l' = [] := hp.symm.eq_nil
      subst hl'
      exact absurd h2 (by simp [selectMin])
  · rcases h2 : selectMin key l' with _ | b'
    · have hl' : l' = [] := (selectMin_eq_none_iff key l').mp h2
      subst hl'
      have hl : l = [] := hp.eq_nil
      subst hl
      exact absurd h1 (by simp [selectMin])
    · have hb := selectMin_mem key l b h1
      have hb' : b' ∈ l := hp.symm.subset (selectMin_mem key l' b' h2)
      have h3 : better (key b') (key b) = false :=
        selectMin_min key l b h1 b' hb'
      have h4 : better (key b) (key b') = false :=
        selectMin_min key l' b' h2 b (hp.subset hb)
      rw [hinj b hb b' hb' (better_antisymm h4 h3)]

end Engine

/-- Claim C7: the per-tick resolution is deterministic — it is a pure
function of the start-of-tick snapshot, the per-agent actions and the random
stream, so two runs with the same inputs produce identical next state,
rewards and events; conflicting claims are settled by the documented
nearest-Euclidean-distance-then-lowest-id selection (the chosen target is
minimal under that order among the candidates), and the selection is
invariant under any reordering of the candidate list (iteration order of
agents never changes the outcome). -/
theorem claim_C7 :
    (∀ (cfg : Engine.Config) (w : Engine.World) (acts : Nat → Engine.Action)
       (rnds : Nat → Nat),
       Engine.stepWorld cfg w acts rnds = Engine.stepWorld cfg w acts rnds) ∧
    (∀ (p : Int × Int) (cands : List Engine.Agent) (b : Engine.Agent),
       Engine.chooseTarget p cands = some b →
       b ∈ cands ∧ ∀ c ∈ cands,
         Engine.dist2 p b.pos < Engine.dist2 p c.pos ∨
           (Engine.dist2 p b.pos = Engine.dist2 p c.pos ∧ b.id ≤ c.id)) ∧
    (∀ (p : Int × Int) (cands cands' : List Engine.Agent),
       List.Perm cands cands' →
       (cands.map (fun b => b.id)).Nodup →
       Engine.chooseTarget p cands = Engine.chooseTarget p cands') := by
  refine ⟨fun _ _ _ _ => rfl, ?_, ?_⟩
  · intro p cands b h
    refine ⟨Engine.selectMin_mem _ cands b h, fun c hc => ?_⟩
    have hmin := Engine.selectMin_min _ cands b h c hc
    rw [Engine.better_eq_false_iff] at hmin
    simp only [] at hmin
    omega
  · intro p cands cands' hperm hnodup
    apply Engine.selectMin_perm _ hperm
    intro x hx y hy hkey
    simp only [Prod.mk.injEq] at hkey
    exact List.inj_on_of_nodup_map hnodup hx hy hkey.2

/-- Witness for C7: concrete tie-break selection between two candidates. -/
theorem claim_C7_witness :
    Engine.chooseTarget ((0 : Int), (0 : Int))
      [Engine.mkAgent (0, ((0 : Int), (0 : Int)),
         Engine.Personality.cooperative),
       Engine.mkAgent (1, ((1 : Int), (1 : Int)),
         Engine.Personality.cooperative)] =
      some (Engine.mkAgent (0, ((0 : Int), (0 : Int)),
        Engine.Personality.cooperative)) ∧
    Engine.mkAgent (0, ((0 : Int), (0 : Int)), Engine.Personality.cooperative)
      ∈ [Engine.mkAgent (0, ((0 : Int), (0 : Int)),
           Engine.Personality.cooperative),
         Engine.mkAgent (1, ((1 : Int), (1 : Int)),
           Engine.Personality.cooperative)] := by
  refine ⟨by decide, ?_⟩
  exact (claim_C7.2.1 ((0 : Int), (0 : Int)) _ _ (by decide)).1

namespace Engine

theorem getD_mem {α : Type} (l : List α) (n : Nat) (d : α)
    (h : n < l.length) : l.getD n d ∈ l := by
  rw [List.getD_eq_getElem l d h]
  exact List.getElem_mem h

theorem mem_freeCells {cfg : Config} {obstacles fd : List (Int × Int)}
    {c : Int × Int} (h : c ∈ freeCells cfg obstacles fd) :
    c ∉ obstacles ∧ c ∉ fd := by
  simp only [freeCells, List.mem_filter, Bool.and_eq_true,
    decide_eq_true_eq] at h
  exact h.2

/-- `spawnFood` either is a silent no-op (no free cell) or appends exactly
one food unit on a cell that is neither an obstacle nor already food. -/
theorem spawnFood_spec (cfg : Config) (obstacles fd : List (Int × Int))
    (r : Nat) :
    (freeCells cfg obstacles fd = [] → spawnFood cfg obstacles fd r = fd) ∧
    (freeCells cfg obstacles fd ≠ [] →
       ∃ c, spawnFood cfg obstacles fd r = fd ++ [c] ∧
         c ∉ obstacles ∧ c ∉ fd) := by
  constructor
  · intro h
    simp [spawnFood, h]
  · intro h
    have hne : (freeCells cfg obstacles fd).isEmpty = false := by
      rcases he : (freeCells cfg obstacles fd).isEmpty with _ | _
      · rfl
      · exact absurd (List.isEmpty_iff.mp he) h
    have hlen : 0 < (freeCells cfg obstacles fd).length :=
      List.length_pos.mpr h
    have hmem : (freeCells cfg obstacles fd).getD
        (r % (freeCells cfg obstacles fd).length) (0, 0) ∈
        freeCells cfg obstacles fd :=
      getD_mem _ _ _ (Nat.mod_lt r hlen)
    refine ⟨_, ?_, (mem_freeCells hmem).1, (mem_freeCells hmem).2⟩
    simp [spawnFood, hne]

/-- Resource-layer invariants preserved by the replacement-spawn loop, and
at most one food unit added per draw. -/
theorem spawnLoop_inv (cfg : Config) (obstacles : List (Int × Int)) :
    ∀ (rs : List Nat) (fd : List (Int × Int)), fd.Nodup →
      (∀ c ∈ fd, c ∉ obstacles) →
      (spawnLoop cfg obstacles fd rs).1.Nodup ∧
      (∀ c ∈ (spawnLoop cfg obstacles fd rs).1, c ∉ obstacles) ∧
      (spawnLoop cfg obstacles fd rs).1.length ≤ fd.length + rs.length := by
  intro rs
  induction rs with
  | nil =>
      intro fd hn hd
      exact ⟨hn, hd, by simp [spawnLoop]⟩
  | cons r rs ih =>
      intro fd hn hd
      simp only [spawnLoop]
      rcases hfree : (freeCells cfg obstacles fd).isEmpty with _ | _
      · have hne : freeCells cfg obstacles fd ≠ [] := by
          intro he
          rw [he] at hfree
          simp at hfree
        obtain ⟨c, heq, hco, hcf⟩ := (spawnFood_spec cfg obstacles fd r).2 hne
        have hn' : (spawnFood cfg obstacles fd r).Nodup := by
          rw [heq]
          refine List.Nodup.append hn (List.nodup_singleton c) ?_
          rw [List.disjoint_left]
          intro x hx hx1
          rw [List.mem_singleton] at hx1
          subst hx1
          exact hcf hx
        have hd' : ∀ d ∈ spawnFood cfg obstacles fd r, d ∉ obstacles := by
          intro d hdmem
          rw [heq, List.mem_append, List.mem_singleton] at hdmem
          rcases hdmem with h1 | rfl
          · exact hd d h1
          · exact hco
        obtain ⟨h1, h2, h3⟩ := ih (spawnFood cfg obstacles fd r) hn' hd'
        refine ⟨h1, h2, ?_⟩
        have hlen : (spawnFood cfg obstacles fd r).length = fd.length + 1 := by
          rw [heq]
          simp
        simp only [List.length_cons]
        omega
      · have heq : spawnFood cfg obstacles fd r = fd := by
          simp [spawnFood, hfree]
        have hn' : (spawnFood cfg obstacles fd r).Nodup := by
          rw [heq]; exact hn
        have hd' : ∀ c ∈ spawnFood cfg obstacles fd r, c ∉ obstacles := by
          rw [heq]; exact hd
        obtain ⟨h1, h2, h3⟩ := ih (spawnFood cfg obstacles fd r) hn' hd'
        refine ⟨h1, h2, ?_⟩
        have hlen : (spawnFood cfg obstacles fd r).length = fd.length := by
          rw [heq]
        simp only [List.length_cons]
        omega

/-- One event per replacement draw. -/
theorem spawnLoop_events_length (cfg : Config)
    (obstacles : List (Int × Int)) :
    ∀ (rs : List Nat) (fd : List (Int × Int)),
      (spawnLoop cfg obstacles fd rs).2.length = rs.length := by
  intro rs
  induction rs with
  | nil => intro fd; simp [spawnLoop]
  | cons r rs ih =>
      intro fd
      simp only [spawnLoop, List.length_cons]
      rw [ih]

/-- Events that record a scheduled replacement spawn (attempted or skipped). -/
def isSpawnAttempt : Ev → Bool
  | .spawned _ => true
  | .spawnSkipped => true
  | .collected _ => false

/-- Events that record a successful collection. -/
def isCollectEv : Ev → Bool
  | .collected _ => true
  | _ => false

theorem spawnLoop_events_attempts (cfg : Config)
    (obstacles : List (Int × Int)) :
    ∀ (rs : List Nat) (fd : List (Int × Int)),
      ∀ e ∈ (spawnLoop cfg obstacles fd rs).2, isSpawnAttempt e = true := by
  intro rs
  induction rs with
  | nil => intro fd e he; simp [spawnLoop] at he
  | cons r rs ih =>
      intro fd e he
      simp only [spawnLoop, List.mem_cons] at he
      rcases he with rfl | he'
      · split <;> rfl
      · exact ih _ e he'

/-- Resource-layer invariant: distinct food cells disjoint from obstacles,
never more than the configured food count. -/
def FoodInv (cfg : Config) (w : World) : Prop :=
  w.food.Nodup ∧ (∀ c ∈ w.food, c ∉ w.obstacles) ∧
  w.food.length ≤ cfg.foodTarget

theorem stepWorld_food (cfg : Config) (w : World) (acts : Nat → Action)
    (rnds : Nat → Nat) :
    (stepWorld cfg w acts rnds).world.food =
      (spawnLoop cfg w.obstacles (w.food.filter (cellUncollected w acts))
        ((List.range (collectedCells w acts).length).map rnds)).1 := rfl

theorem stepWorld_obstacles (cfg : Config) (w : World) (acts : Nat → Action)
    (rnds : Nat → Nat) :
    (stepWorld cfg w acts rnds).world.obstacles = w.obstacles := rfl

theorem foodInv_step (cfg : Config) (w : World) (acts : Nat → Action)
    (rnds : Nat → Nat) (inv : FoodInv cfg w) :
    FoodInv cfg (stepWorld cfg w acts rnds).world := by
  obtain ⟨hn, hd, hl⟩ := inv
  have hfl : (w.food.filter (cellUncollected w acts)).length +
      (collectedCells w acts).length = w.food.length := by
    have hperm := w.food.filter_append_perm (cellUncollected w acts)
    have := hperm.length_eq
    rw [List.length_append] at this
    rw [collectedCells]
    omega
  have hnodup := List.Nodup.filter (cellUncollected w acts) hn
  have hdisj : ∀ c ∈ w.food.filter (cellUncollected w acts),
      c ∉ w.obstacles := by
    intro c hc
    exact hd c (List.mem_of_mem_filter hc)
  obtain ⟨h1, h2, h3⟩ := spawnLoop_inv cfg w.obstacles
    ((List.range (collectedCells w acts).length).map rnds)
    (w.food.filter (cellUncollected w acts)) hnodup hdisj
  rw [List.length_map, List.length_range] at h3
  refine ⟨?_, ?_, ?_⟩
  · rw [stepWorld_food]
    exact h1
  · rw [stepWorld_food, stepWorld_obstacles]
    exact h2
  · rw [stepWorld_food]
    omega

theorem foodInv_mkWorld (cfg : Config) (d : InitData) (h : ValidInit cfg d) :
    FoodInv cfg (mkWorld d) := ⟨h.2.1, h.2.2.1, h.2.2.2⟩

theorem reachable_foodInv {cfg : Config} {w : World} (h : Reachable cfg w) :
    FoodInv cfg w := by
  induction h with
  | init d hd => exact foodInv_mkWorld cfg d hd
  | step w acts rnds hw ih => exact foodInv_step cfg w acts rnds ih

end Engine

namespace Engine

theorem stepWorld_events (cfg : Config) (w : World) (acts : Nat → Action)
    (rnds : Nat → Nat) :
    (stepWorld cfg w acts rnds).events =
      (collectedCells w acts).map Ev.collected ++
      (spawnLoop cfg w.obstacles (w.food.filter (cellUncollected w acts))
        ((List.range (collectedCells w acts).length).map rnds)).2 := rfl

theorem isCollectEv_of_spawnAttempt {e : Ev}
    (h : isSpawnAttempt e = true) : isCollectEv e = false := by
  cases e <;> simp_all [isSpawnAttempt, isCollectEv]

/-- Exactly one replacement spawn is scheduled per successful collection. -/
theorem stepWorld_spawn_count (cfg : Config) (w : World)
    (acts : Nat → Action) (rnds : Nat → Nat) :
    (stepWorld cfg w acts rnds).events.countP isSpawnAttempt =
      (stepWorld cfg w acts rnds).events.countP isCollectEv := by
  rw [stepWorld_events, List.countP_append, List.countP_append]
  have h1 : ((collectedCells w acts).map Ev.collected).countP
      isSpawnAttempt = 0 := by
    rw [List.countP_eq_zero]
    intro e he
    obtain ⟨c, _, rfl⟩ := List.mem_map.mp he
    simp [isSpawnAttempt]
  have h2 : ((collectedCells w acts).map Ev.collected).countP
      isCollectEv = (collectedCells w acts).length := by
    rw [← List.length_map (collectedCells w acts) Ev.collected]
    apply List.countP_eq_length.mpr
    intro e he
    obtain ⟨c, _, rfl⟩ := List.mem_map.mp he
    rfl
  have h3 : ((spawnLoop cfg w.obstacles
      (w.food.filter (cellUncollected w acts))
      ((List.range (collectedCells w acts).length).map rnds)).2).countP
      isSpawnAttempt = (collectedCells w acts).length := by
    rw [List.countP_eq_length.mpr (spawnLoop_events_attempts cfg
      w.obstacles _ _), spawnLoop_events_length]
    simp
  have h4 : ((spawnLoop cfg w.obstacles
      (w.food.filter (cellUncollected w acts))
      ((List.range (collectedCells w acts).length).map rnds)).2).countP
      isCollectEv = 0 := by
    rw [List.countP_eq_zero]
    intro e he
    simp [isCollectEv_of_spawnAttempt
      (spawnLoop_events_attempts cfg w.obstacles _ _ e he)]
  omega

end Engine

/-- Claim C8: `spawnFood` places exactly one food unit on a free cell
(neither obstacle nor food) and is a silent no-op when no free cell exists;
in every reachable world the number of food cells never exceeds the
configured food count; and every tick schedules exactly one replacement
spawn attempt per successful collection. -/
theorem claim_C8 :
    (∀ (cfg : Engine.Config) (obstacles fd : List (Int × Int)) (r : Nat),
       (Engine.freeCells cfg obstacles fd = [] →
          Engine.spawnFood cfg obstacles fd r = fd) ∧
       (Engine.freeCells cfg obstacles fd ≠ [] →
          ∃ c, Engine.spawnFood cfg obstacles fd r = fd ++ [c] ∧
            c ∉ obstacles ∧ c ∉ fd)) ∧
    (∀ (cfg : Engine.Config) (w : Engine.World), Engine.Reachable cfg w →
       w.food.length ≤ cfg.foodTarget ∧ w.food.Nodup ∧
       ∀ c ∈ w.food, c ∉ w.obstacles) ∧
    (∀ (cfg : Engine.Config) (w : Engine.World) (acts : Nat → Engine.Action)
       (rnds : Nat → Nat),
       (Engine.stepWorld cfg w acts rnds).events.countP
         Engine.isSpawnAttempt =
       (Engine.stepWorld cfg w acts rnds).events.countP
         Engine.isCollectEv) := by
  refine ⟨fun cfg obstacles fd r => Engine.spawnFood_spec cfg obstacles fd r,
    fun cfg w h => ?_, fun cfg w acts rnds =>
      Engine.stepWorld_spawn_count cfg w acts rnds⟩
  obtain ⟨h1, h2, h3⟩ := Engine.reachable_foodInv h
  exact ⟨h3, h1, h2⟩

/-- Witness for C8: a concrete spawn on the example grid and the food bound
on the example start world. -/
theorem claim_C8_witness :
    Engine.freeCells Engine.cfgEx [] [] ≠ [] ∧
    (∃ c, Engine.spawnFood Engine.cfgEx [] [] 0 = [] ++ [c] ∧
       c ∉ ([] : List (Int × Int)) ∧ c ∉ ([] : List (Int × Int))) ∧
    (Engine.mkWorld Engine.initEx1).food.length ≤ Engine.cfgEx.foodTarget :=
  ⟨by decide, (claim_C8.1 Engine.cfgEx [] [] 0).2 (by decide),
   (claim_C8.2.1 Engine.cfgEx _
     (Engine.Reachable.init Engine.initEx1 (by decide))).1⟩

namespace Engine

theorem chebDist_comm (p q : Int × Int) : chebDist p q = chebDist q p := by
  unfold chebDist
  omega

theorem stepWorld_rewards (cfg : Config) (w : World) (acts : Nat → Action)
    (rnds : Nat → Nat) (i : Nat) :
    (stepWorld cfg w acts rnds).rewards i =
      (match findAgent w i with
       | some a => if a.alive then rewardOf cfg w acts a else 0
       | none => 0) := rfl

end Engine

/-- Claim C6: in a world of two live Cooperative agents at Chebyshev
distance 1 with inventories 2 and 0, both choosing Share, the tick resolves
to inventories 1 and 1 with reward +5 for each (one transfer takes place,
the empty-handed agent's request finds the stocked neighbor, the stocked
agent's own Share finds no valid target); and with no valid Cooperative
target holding inventory (the neighbor idles with inventory 0), Share is a
no-op with reward 0 and unchanged inventories. -/
theorem claim_C6 (cfg : Engine.Config) (w : Engine.World)
    (acts : Nat → Engine.Action) (rnds : Nat → Nat) (a b : Engine.Agent)
    (hw : w.agents = [a, b])
    (hid : ¬ a.id = b.id)
    (hapers : a.personality = Engine.Personality.cooperative)
    (hbpers : b.personality = Engine.Personality.cooperative)
    (haal : a.alive = true) (hbal : b.alive = true)
    (hainv : a.inventory = 2) (hbinv : b.inventory = 0)
    (hdist : Engine.chebDist a.pos b.pos = 1) :
    (acts a.id = Engine.Action.share → acts b.id = Engine.Action.share →
       (Engine.stepWorld cfg w acts rnds).rewards a.id = 5 ∧
       (Engine.stepWorld cfg w acts rnds).rewards b.id = 5 ∧
       (Engine.stepWorld cfg w acts rnds).world.agents.map
         (fun x => x.inventory) = [1, 1]) ∧
    (acts a.id = Engine.Action.share → acts b.id = Engine.Action.idle →
       (Engine.stepWorld cfg w acts rnds).rewards a.id = 0 ∧
       (Engine.stepWorld cfg w acts rnds).world.agents.map
         (fun x => x.inventory) = [2, 0]) := by
  have hfa : Engine.findAgent w a.id = some a := by
    simp [Engine.findAgent, hw]
  have hfb : Engine.findAgent w b.id = some b := by
    simp only [Engine.findAgent, hw, List.find?]
    have : (a.id == b.id) = false := by
      simp [hid]
    rw [this]
    simp
  have hdist' : Engine.chebDist b.pos a.pos = 1 := by
    rw [Engine.chebDist_comm]; exact hdist
  constructor
  · intro hsa hsb
    have hca : Engine.shareCandidates w a = [] := by
      simp [Engine.shareCandidates, hw, hbinv]
    have hcb : Engine.shareCandidates w b = [a] := by
      simp [Engine.shareCandidates, hw, hainv, hapers, haal, hdist', hid]
    have htr : Engine.shareTransfers w acts = [(a.id, b.id)] := by
      simp [Engine.shareTransfers, hw, hsa, hsb, haal, hbal, hca, hcb,
        Engine.chooseTarget, Engine.selectMin, Engine.pickBetter]
    have hst : Engine.stealTransfers w acts = [] := by
      simp [Engine.stealTransfers, hw, hsa, hsb]
    have hfp : Engine.formPairs w acts = [] := by
      simp [Engine.formPairs, Engine.formPairGen, hw, hsa, hsb]
    have hfr_a : Engine.formedReward w acts a = 0 := by
      simp [Engine.formedReward, Engine.pairIdxOf, hfp, Engine.pairIdxFrom]
    have hfr_b : Engine.formedReward w acts b = 0 := by
      simp [Engine.formedReward, Engine.pairIdxOf, hfp, Engine.pairIdxFrom]
    have hra : Engine.rewardOf cfg w acts a = 5 := by
      rw [Engine.rewardOf, htr, hst, hfr_a, hsa]
      simp [Engine.moveOutcome, Engine.moveDelta, Engine.isCollectSuccess,
        hsa, List.countP_cons, Ne.symm hid]
    have hrb : Engine.rewardOf cfg w acts b = 5 := by
      rw [Engine.rewardOf, htr, hst, hfr_b, hsb]
      simp [Engine.moveOutcome, Engine.moveDelta, Engine.isCollectSuccess,
        hsb, List.countP_cons, hid]
    have hia : Engine.invDelta w acts a = -1 := by
      rw [Engine.invDelta, htr, hst]
      simp [Engine.isCollectSuccess, hsa, List.countP_cons, Ne.symm hid]
    have hib : Engine.invDelta w acts b = 1 := by
      rw [Engine.invDelta, htr, hst]
      simp [Engine.isCollectSuccess, hsb, List.countP_cons, hid]
    refine ⟨?_, ?_, ?_⟩
    · rw [Engine.stepWorld_rewards, hfa]
      simp [haal, hra]
    · rw [Engine.stepWorld_rewards, hfb]
      simp [hbal, hrb]
    · rw [Engine.stepWorld_agents, hw]
      simp only [List.map_cons, List.map_nil]
      rw [Engine.agentAfter, Engine.agentAfter]
      simp only [haal, hbal, if_pos]
      simp [hia, hib, hainv, hbinv]
  · intro hsa hsb
    have hca : Engine.shareCandidates w a = [] := by
      simp [Engine.shareCandidates, hw, hbinv]
    have htr : Engine.shareTransfers w acts = [] := by
      simp [Engine.shareTransfers, hw, hsa, hsb, hca,
        Engine.chooseTarget, Engine.selectMin]
    have hst : Engine.stealTransfers w acts = [] := by
      simp [Engine.stealTransfers, hw, hsa, hsb]
    have hfp : Engine.formPairs w acts = [] := by
      simp [Engine.formPairs, Engine.formPairGen, hw, hsa, hsb]
    have hfr_a : Engine.formedReward w acts a = 0 := by
      simp [Engine.formedReward, Engine.pairIdxOf, hfp, Engine.pairIdxFrom]
    have hra : Engine.rewardOf cfg w acts a = 0 := by
      rw [Engine.rewardOf, htr, hst, hfr_a, hsa]
      simp [Engine.moveOutcome, Engine.moveDelta, Engine.isCollectSuccess,
        hsa]
    have hia : Engine.invDelta w acts a = 0 := by
      rw [Engine.invDelta, htr, hst]
      simp [Engine.isCollectSuccess, hsa]
    have hib : Engine.invDelta w acts b = 0 := by
      rw [Engine.invDelta, htr, hst]
      simp [Engine.isCollectSuccess, hsb]
    refine ⟨?_, ?_⟩
    · rw [Engine.stepWorld_rewards, hfa]
      simp [haal, hra]
    · rw [Engine.stepWorld_agents, hw]
      simp only [List.map_cons, List.map_nil]
      rw [Engine.agentAfter, Engine.agentAfter]
      simp only [haal, hbal, if_pos]
      simp [hia, hib, hainv, hbinv]

namespace Engine

/-- Concrete stocked sharer for the C6 scenario. -/
def agentShareA : Agent :=
  { id := 0, pos := ((0 : Int), (0 : Int)), health := 100, inventory := 2,
    personality := Personality.cooperative, allianceId := none,
    signal := Signal.noSignal, score := 0, alive := true }

/-- Concrete empty-handed sharer for the C6 scenario. -/
def agentShareB : Agent :=
  { id := 1, pos := ((1 : Int), (0 : Int)), health := 100, inventory := 0,
    personality := Personality.cooperative, allianceId := none,
    signal := Signal.noSignal, score := 0, alive := true }

/-- Two adjacent Cooperative agents with inventories (2,0). -/
def worldShare : World :=
  { tick := 0, agents := [agentShareA, agentShareB], obstacles := [],
    food := [], alliances := [], nextAllianceId := 0 }

end Engine

/-- Witness for C6 on the concrete two-agent share scenario. -/
theorem claim_C6_witness :
    (Engine.stepWorld Engine.cfgEx Engine.worldShare
       (fun _ => Engine.Action.share) (fun _ => 0)).rewards 0 = 5 ∧
    (Engine.stepWorld Engine.cfgEx Engine.worldShare
       (fun _ => Engine.Action.share) (fun _ => 0)).rewards 1 = 5 ∧
    (Engine.stepWorld Engine.cfgEx Engine.worldShare
       (fun _ => Engine.Action.share) (fun _ => 0)).world.agents.map
      (fun x => x.inventory) = [1, 1] :=
  (claim_C6 Engine.cfgEx Engine.worldShare (fun _ => Engine.Action.share)
    (fun _ => 0) Engine.agentShareA Engine.agentShareB rfl (by decide) rfl
    rfl rfl rfl rfl rfl (by decide)).1 rfl rfl

namespace Engine

theorem agentAfter_id (cfg : Config) (w : World) (acts : Nat → Action)
    (a : Agent) : (agentAfter cfg w acts a).id = a.id := by
  unfold agentAfter
  split <;> rfl

theorem applyMaintain_id (w : World) (acts : Nat → Action) (A : Alliance) :
    (applyMaintain w acts A).id = A.id := by
  unfold applyMaintain
  split <;> rfl

theorem applyMaintain_members (w : World) (acts : Nat → Action)
    (A : Alliance) : (applyMaintain w acts A).members = A.members := by
  unfold applyMaintain
  split <;> rfl

theorem applyMaintain_active (w : World) (acts : Nat → Action)
    (A : Alliance) : (applyMaintain w acts A).active = A.active := by
  unfold applyMaintain
  split <;> rfl

theorem applyLeave_id (w : World) (acts : Nat → Action) (A : Alliance) :
    (applyLeave w acts A).id = A.id := by
  unfold applyLeave
  dsimp only
  split <;> rfl

theorem dissolveForDeaths_id (cfg : Config) (w : World)
    (acts : Nat → Action) (A : Alliance) :
    (dissolveForDeaths cfg w acts A).id = A.id := by
  unfold dissolveForDeaths
  dsimp only
  split <;> rfl

theorem stepWorld_alliances (cfg : Config) (w : World) (acts : Nat → Action)
    (rnds : Nat → Nat) :
    (stepWorld cfg w acts rnds).world.alliances = ledgerFinal cfg w acts :=
  rfl

theorem stepWorld_nextAllianceId (cfg : Config) (w : World)
    (acts : Nat → Action) (rnds : Nat → Nat) :
    (stepWorld cfg w acts rnds).world.nextAllianceId =
      w.nextAllianceId + (formPairs w acts).length := rfl

/-- On a list with pairwise-distinct keys, `find?` by the key of a member
returns exactly that member. -/
theorem find?_key_eq_some {α : Type} (key : α → Nat) :
    ∀ {l : List α}, (l.map key).Nodup → ∀ {x : α}, x ∈ l →
      l.find? (fun y => key y == key x) = some x := by
  intro l
  induction l with
  | nil => intro _ x hx; simp at hx
  | cons a rest ih =>
      intro h x hx
      rw [List.map_cons, List.nodup_cons] at h
      rcases List.mem_cons.mp hx with rfl | hx'
      · simp [List.find?_cons]
      · rw [List.find?_cons]
        have hne : (key a == key x) = false := by
          simp only [beq_eq_false_iff_ne, ne_eq]
          intro he
          exact h.1 (he ▸ List.mem_map_of_mem key hx')
        rw [hne]
        exact ih h.2 hx'

theorem findAgent_eq_some {w : World} (h : (w.agents.map Agent.id).Nodup)
    {a : Agent} (ha : a ∈ w.agents) : findAgent w a.id = some a :=
  find?_key_eq_some Agent.id h ha

theorem findAgent_mem {w : World} {i : Nat} {a : Agent}
    (h : findAgent w i = some a) : a ∈ w.agents ∧ a.id = i := by
  refine ⟨List.mem_of_find?_eq_some h, ?_⟩
  have := List.find?_some h
  simpa using this

/-- Agents of a world with distinct ids are determined by their id. -/
theorem agent_id_inj {w : World} (h : (w.agents.map Agent.id).Nodup)
    {x y : Agent} (hx : x ∈ w.agents) (hy : y ∈ w.agents)
    (hxy : x.id = y.id) : x = y :=
  List.inj_on_of_nodup_map h hx hy hxy

theorem mem_formCandidates {w : World} {acts : Nat → Action} {a b : Agent}
    (h : b ∈ formCandidates w acts a) :
    b ∈ w.agents ∧ b.alive = true ∧ ¬ b.id = a.id ∧ b.allianceId = none ∧
    acts b.id = Action.formAlliance ∧ chebDist a.pos b.pos ≤ 1 := by
  simp only [formCandidates, List.mem_filter, Bool.and_eq_true,
    decide_eq_true_eq] at h
  tauto

theorem nearestFormPartner_mem {w : World} {acts : Nat → Action}
    {a b : Agent} (h : nearestFormPartner w acts a = some b) :
    b ∈ formCandidates w acts a :=
  selectMin_mem _ _ _ h

/-- Everything the formation generator guarantees about a produced pair. -/
theorem formPairGen_eq_some {w : World} {acts : Nat → Action} {a : Agent}
    {p : Nat × Nat} (h : formPairGen w acts a = some p) :
    ∃ b, nearestFormPartner w acts a = some b ∧ p = (a.id, b.id) ∧
      a.id < b.id ∧ nearestFormPartner w acts b = some a ∧
      a.alive = true ∧ acts a.id = Action.formAlliance ∧
      a.allianceId = none ∧ b ∈ w.agents ∧ b.alive = true ∧
      ¬ b.id = a.id ∧ b.allianceId = none ∧
      acts b.id = Action.formAlliance := by
  unfold formPairGen at h
  split at h
  · rename_i hguard
    split at h
    · rename_i b hnp
      split at h
      · rename_i hcond
        have hbmem := mem_formCandidates (nearestFormPartner_mem hnp)
        injection h with h
        exact ⟨b, hnp, h.symm, hcond.1, hcond.2, hguard.1, hguard.2.1,
          hguard.2.2, hbmem.1, hbmem.2.1, hbmem.2.2.1, hbmem.2.2.2.1,
          hbmem.2.2.2.2.1⟩
      · exact Option.noConfusion h
    · exact Option.noConfusion h
  · exact Option.noConfusion h

theorem mem_formPairs {w : World} {acts : Nat → Action} {p : Nat × Nat}
    (h : p ∈ formPairs w acts) :
    ∃ a ∈ w.agents, formPairGen w acts a = some p :=
  List.mem_filterMap.mp h

/-- Two formation pairs are disjoint when they touch no common agent id. -/
def pairDisj (p q : Nat × Nat) : Prop :=
  p.1 ≠ q.1 ∧ p.1 ≠ q.2 ∧ p.2 ≠ q.1 ∧ p.2 ≠ q.2

theorem pairIdxFrom_eq_none {i : Nat} :
    ∀ (ps : List (Nat × Nat)) (k : Nat),
      (∀ p ∈ ps, ¬ (p.1 = i ∨ p.2 = i)) → pairIdxFrom i k ps = none := by
  intro ps
  induction ps with
  | nil => intro k _; rfl
  | cons q ps ih =>
      intro k h
      rw [pairIdxFrom, if_neg (h q (List.mem_cons_self q ps))]
      exact ih (k + 1) (fun p hp => h p (List.mem_cons_of_mem q hp))

end Engine

namespace Engine

/-- The mutual nearest-partner requirement makes the formed pairs a partial
matching: pairs produced by distinct agents touch no common id. -/
theorem formPairs_pairwise (w : World) (acts : Nat → Action)
    (hids : (w.agents.map Agent.id).Nodup) :
    List.Pairwise pairDisj (formPairs w acts) := by
  have hpw : List.Pairwise
      (fun x y : Agent => x ∈ w.agents ∧ y ∈ w.agents ∧ x.id ≠ y.id)
      w.agents := by
    have h1 : List.Pairwise (fun x y : Agent => x.id ≠ y.id) w.agents :=
      List.pairwise_map.mp hids
    exact List.Pairwise.imp_of_mem (fun hx hy hR => ⟨hx, hy, hR⟩) h1
  refine List.Pairwise.filterMap (formPairGen w acts) ?_ hpw
  intro x y hR p hp q hq
  rw [Option.mem_def] at hp hq
  obtain ⟨hx, hy, hxy⟩ := hR
  obtain ⟨bx, hnpx, rfl, hltx, hmux, _, _, _, hbxm, _, _, _, _⟩ :=
    formPairGen_eq_some hp
  obtain ⟨bY, hnpy, rfl, hlty, hmuy, _, _, _, hbym, _, _, _, _⟩ :=
    formPairGen_eq_some hq
  refine ⟨hxy, ?_, ?_, ?_⟩
  · intro he
    have hxb : x = bY := agent_id_inj hids hx hbym he
    subst hxb
    rw [hnpx] at hmuy
    have hby : bx = y := Option.some_inj.mp hmuy
    subst hby
    omega
  · intro he
    have hbxy : bx = y := agent_id_inj hids hbxm hy he
    subst hbxy
    rw [hnpy] at hmux
    have hby : bY = x := Option.some_inj.mp hmux
    subst hby
    omega
  · intro he
    have hbb : bx = bY := agent_id_inj hids hbxm hbym he
    subst hbb
    rw [hmux] at hmuy
    exact hxy (congrArg Agent.id (Option.some_inj.mp hmuy))

/-- Field values of a freshly formed alliance. -/
theorem mkNewAlliance_id (w : World) (k : Nat) (p : Nat × Nat) :
    (mkNewAlliance w k p).id = k := rfl

theorem mkNewAlliance_members (w : World) (k : Nat) (p : Nat × Nat) :
    (mkNewAlliance w k p).members = [p.1, p.2] := rfl

theorem mkNewAlliance_active (w : World) (k : Nat) (p : Nat × Nat) :
    (mkNewAlliance w k p).active = true := rfl

/-- Shape and id bounds of the freshly formed alliances. -/
theorem newAlliances_shape (w : World) :
    ∀ (ps : List (Nat × Nat)) (k : Nat) (A : Alliance),
      A ∈ newAlliances w k ps →
      k ≤ A.id ∧ A.id < k + ps.length ∧ A.active = true ∧
      A.lastMaintainedTick = w.tick ∧
      ∃ p ∈ ps, A.members = [p.1, p.2] := by
  intro ps
  induction ps with
  | nil => intro k A hA; simp [newAlliances] at hA
  | cons q ps ih =>
      intro k A hA
      rw [newAlliances, List.mem_cons] at hA
      rcases hA with rfl | hA'
      · refine ⟨le_rfl, ?_, rfl, rfl, q, List.mem_cons_self q ps, rfl⟩
        rw [mkNewAlliance_id, List.length_cons]
        omega
      · obtain ⟨h1, h2, h3, h4, p, hp, h5⟩ := ih (k + 1) A hA'
        refine ⟨by omega, ?_, h3, h4, p, List.mem_cons_of_mem q hp, h5⟩
        rw [List.length_cons]
        omega

theorem newAlliances_ids_nodup (w : World) :
    ∀ (ps : List (Nat × Nat)) (k : Nat),
      ((newAlliances w k ps).map Alliance.id).Nodup := by
  intro ps
  induction ps with
  | nil => intro k; simp [newAlliances]
  | cons q ps ih =>
      intro k
      rw [newAlliances, List.map_cons, List.nodup_cons]
      refine ⟨?_, ih (k + 1)⟩
      intro hmem
      obtain ⟨A, hA, hid⟩ := List.mem_map.mp hmem
      have hb := (newAlliances_shape w ps (k + 1) A hA).1
      rw [mkNewAlliance_id] at hid
      omega

/-- A member of a freshly formed alliance is assigned exactly that
alliance's id by the sequential allocation (uses pair disjointness). -/
theorem newAlliances_member_idx (w : World) :
    ∀ (ps : List (Nat × Nat)) (k : Nat), List.Pairwise pairDisj ps →
      ∀ A ∈ newAlliances w k ps, ∀ m ∈ A.members,
        pairIdxFrom m k ps = some A.id := by
  intro ps
  induction ps with
  | nil => intro k _ A hA; simp [newAlliances] at hA
  | cons q ps ih =>
      intro k hpw A hA m hm
      rw [newAlliances, List.mem_cons] at hA
      rcases hA with rfl | hA'
      · rw [mkNewAlliance_members] at hm
        have hm' : m = q.1 ∨ m = q.2 := by simpa using hm
        rw [pairIdxFrom, if_pos (by tauto), mkNewAlliance_id]
      · have hrec := ih (k + 1) (List.Pairwise.of_cons hpw) A hA' m hm
        obtain ⟨_, _, _, _, p, hp, hmem⟩ :=
          newAlliances_shape w ps (k + 1) A hA'
        rw [hmem] at hm
        have hm' : m = p.1 ∨ m = p.2 := by simpa using hm
        have hdisj := (List.pairwise_cons.mp hpw).1 p hp
        rw [pairIdxFrom, if_neg ?_]
        · exact hrec
        · obtain ⟨d1, d2, d3, d4⟩ := hdisj
          rcases hm' with rfl | rfl <;> tauto

end Engine

namespace Engine

/-- The well-formedness invariant of the alliance/agent bookkeeping
(§3 data model, §4.4 state machine). -/
structure AllianceInv (w : World) : Prop where
  idsNodup : (w.agents.map Agent.id).Nodup
  deadNoAlliance : ∀ a ∈ w.agents, a.alive = false → a.allianceId = none
  allianceIdsNodup : (w.alliances.map Alliance.id).Nodup
  allianceIdsLt : ∀ A ∈ w.alliances, A.id < w.nextAllianceId
  activeMin2 : ∀ A ∈ w.alliances, A.active = true → 2 ≤ A.members.length
  membersNodup : ∀ A ∈ w.alliances, A.members.Nodup
  inactiveEmpty : ∀ A ∈ w.alliances, A.active = false → A.members = []
  refConsistent : ∀ a ∈ w.agents, ∀ i, a.allianceId = some i →
    ∃ A ∈ w.alliances, A.id = i ∧ A.active = true ∧ a.id ∈ A.members
  memberConsistent : ∀ A ∈ w.alliances, ∀ m ∈ A.members,
    ∃ a ∈ w.agents, a.id = m ∧ a.allianceId = some A.id ∧ a.alive = true

theorem applyLeave_mem_spec {w : World} {acts : Nat → Action} {A : Alliance}
    {m : Nat} (hm : m ∈ (applyLeave w acts A).members) :
    m ∈ A.members ∧ isLeaver w acts m = false ∧
    (applyLeave w acts A).active = A.active := by
  unfold applyLeave at hm ⊢
  dsimp only at hm ⊢
  split at hm
  · simp at hm
  · rename_i hge
    rw [if_neg hge]
    have h2 := List.mem_filter.mp hm
    exact ⟨h2.1, by simpa using h2.2, rfl⟩

theorem dissolve_mem_spec {cfg : Config} {w : World} {acts : Nat → Action}
    {A : Alliance} {m : Nat}
    (hm : m ∈ (dissolveForDeaths cfg w acts A).members) :
    m ∈ A.members ∧
    (∃ am, findAgent w m = some am ∧ survives cfg w acts am = true) ∧
    (dissolveForDeaths cfg w acts A).active = A.active := by
  unfold dissolveForDeaths at hm ⊢
  dsimp only at hm ⊢
  split at hm
  · simp at hm
  · rename_i hge
    rw [if_neg hge]
    have h2 := List.mem_filter.mp hm
    refine ⟨h2.1, ?_, rfl⟩
    have h3 := h2.2
    rcases hf : findAgent w m with _ | am <;> rw [hf] at h3
    · simp at h3
    · exact ⟨am, rfl, h3⟩

theorem oldStage_of_inactive {w : World} {acts : Nat → Action} {A : Alliance}
    (hm : A.members = []) :
    (applyLeave w acts (applyMaintain w acts A)).active = false ∧
    (applyLeave w acts (applyMaintain w acts A)).members = [] := by
  unfold applyLeave
  dsimp only
  rw [applyMaintain_members, hm]
  rw [if_pos (by simp)]
  exact ⟨rfl, rfl⟩

theorem dissolve_of_empty {cfg : Config} {w : World} {acts : Nat → Action}
    {A : Alliance} (hm : A.members = []) :
    (dissolveForDeaths cfg w acts A).active = false ∧
    (dissolveForDeaths cfg w acts A).members = [] := by
  unfold dissolveForDeaths
  dsimp only
  rw [hm]
  rw [if_pos (by simp)]
  exact ⟨rfl, rfl⟩

/-- After the action phases, dissolved alliances still have no members. -/
theorem ledgerAfter_inactive_empty {w : World} {acts : Nat → Action}
    (inv : AllianceInv w) :
    ∀ B ∈ ledgerAfterActions w acts, B.active = false → B.members = [] := by
  intro B hB hact
  rw [ledgerAfterActions, List.mem_append] at hB
  rcases hB with h | h
  · obtain ⟨A, hA, rfl⟩ := List.mem_map.mp h
    rcases hAact : A.active with _ | _
    · exact (oldStage_of_inactive (inv.inactiveEmpty A hA hAact)).2
    · unfold applyLeave at hact ⊢
      dsimp only at hact ⊢
      split at hact
      · rw [if_pos (by assumption)]
      · rw [applyMaintain_active] at hact
        rw [hact] at hAact
        exact absurd hAact (by simp)
  · have := (newAlliances_shape w (formPairs w acts) w.nextAllianceId B h).2.2.1
    rw [this] at hact
    exact absurd hact (by simp)

/-- At tick end, dissolved alliances have no members. -/
theorem ledgerFinal_inactive_empty {cfg : Config} {w : World}
    {acts : Nat → Action} (inv : AllianceInv w) :
    ∀ A ∈ ledgerFinal cfg w acts, A.active = false → A.members = [] := by
  intro A hA hact
  rw [ledgerFinal] at hA
  obtain ⟨B, hB, rfl⟩ := List.mem_map.mp hA
  rcases hBm : B.members with _ | ⟨m, ms⟩
  · exact (dissolve_of_empty hBm).2
  · unfold dissolveForDeaths at hact ⊢
    dsimp only at hact ⊢
    split at hact
    · rw [if_pos (by assumption)]
    · rename_i hge
      have hBempty := ledgerAfter_inactive_empty inv B hB hact
      exfalso
      apply hge
      rw [hBempty]
      simp

theorem ledgerAfter_ids {w : World} {acts : Nat → Action} :
    (ledgerAfterActions w acts).map Alliance.id =
      w.alliances.map Alliance.id ++
      (newAlliances w w.nextAllianceId (formPairs w acts)).map Alliance.id := by
  rw [ledgerAfterActions, List.map_append, List.map_map]
  congr 1
  apply List.map_congr_left
  intro A hA
  simp only [Function.comp]
  rw [applyLeave_id, applyMaintain_id]

theorem ledgerFinal_ids {cfg : Config} {w : World} {acts : Nat → Action} :
    (ledgerFinal cfg w acts).map Alliance.id =
      (ledgerAfterActions w acts).map Alliance.id := by
  rw [ledgerFinal, List.map_map]
  apply List.map_congr_left
  intro A hA
  simp only [Function.comp]
  rw [dissolveForDeaths_id]

theorem ledgerFinal_ids_nodup {cfg : Config} {w : World}
    {acts : Nat → Action} (inv : AllianceInv w) :
    ((ledgerFinal cfg w acts).map Alliance.id).Nodup := by
  rw [ledgerFinal_ids, ledgerAfter_ids]
  rw [List.nodup_append]
  refine ⟨inv.allianceIdsNodup, newAlliances_ids_nodup w _ _, ?_⟩
  rw [List.disjoint_left]
  intro i hi hi'
  obtain ⟨A, hA, rfl⟩ := List.mem_map.mp hi
  obtain ⟨B, hB, hBid⟩ := List.mem_map.mp hi'
  have h1 := inv.allianceIdsLt A hA
  have h2 := (newAlliances_shape w (formPairs w acts) w.nextAllianceId B hB).1
  omega

end Engine

namespace Engine

/-- An agent already holding an alliance reference is part of no formation
pair (eligibility requires being unallied). -/
theorem not_in_pairs_of_allied {w : World} {acts : Nat → Action}
    (hids : (w.agents.map Agent.id).Nodup) {x : Agent} (hx : x ∈ w.agents)
    {j : Nat} (hj : x.allianceId = some j) :
    pairIdxFrom x.id w.nextAllianceId (formPairs w acts) = none := by
  apply pairIdxFrom_eq_none
  intro p hp hcontra
  obtain ⟨a, ha, hgen⟩ := mem_formPairs hp
  obtain ⟨b, _, rfl, _, _, _, _, hanone, hbmem, _, _, hbnone, _⟩ :=
    formPairGen_eq_some hgen
  rcases hcontra with h1 | h1
  · have : a = x := agent_id_inj hids ha hx h1
    subst this
    rw [hanone] at hj
    exact Option.noConfusion hj
  · have : b = x := agent_id_inj hids hbmem hx h1
    subst this
    rw [hbnone] at hj
    exact Option.noConfusion hj

theorem allianceMid_of_pairIdx {w : World} {acts : Nat → Action} {x : Agent}
    {j : Nat} (h : pairIdxOf w acts x.id = some j) :
    allianceMid w acts x = some j := by
  unfold allianceMid
  rw [h]

theorem allianceMid_of_allied {w : World} {acts : Nat → Action}
    (hids : (w.agents.map Agent.id).Nodup) {x : Agent} (hx : x ∈ w.agents)
    {j : Nat} (hj : x.allianceId = some j)
    (hnl : ¬ acts x.id = Action.leaveAlliance) :
    allianceMid w acts x = some j := by
  unfold allianceMid pairIdxOf
  rw [not_in_pairs_of_allied hids hx hj]
  dsimp only
  rw [if_neg hnl, hj]

theorem findAgent_unique {w : World} (hids : (w.agents.map Agent.id).Nodup)
    {x am : Agent} {m : Nat} (hx : x ∈ w.agents) (hxid : x.id = m)
    (hfam : findAgent w m = some am) : x = am := by
  have h := findAgent_eq_some hids hx
  rw [hxid] at h
  rw [h] at hfam
  exact Option.some_inj.mp hfam

theorem agentAfter_alive_allianceId (cfg : Config) (w : World)
    (acts : Nat → Action) {a : Agent} (ha : a.alive = true) :
    (agentAfter cfg w acts a).allianceId =
      (if survives cfg w acts a then allianceIdFinal cfg w acts a
       else none) ∧
    (agentAfter cfg w acts a).alive = survives cfg w acts a := by
  unfold agentAfter
  rw [if_pos ha]
  exact ⟨rfl, rfl⟩

/-- Computation of the final alliance reference of an agent attached to a
surviving alliance. -/
theorem allianceIdFinal_eq {cfg : Config} {w : World} {acts : Nat → Action}
    (inv : AllianceInv w) {x : Agent} {B : Alliance}
    (hmid : allianceMid w acts x = some B.id)
    (hBmem : B ∈ ledgerAfterActions w acts)
    (hact : (dissolveForDeaths cfg w acts B).active = true)
    (hxm : x.id ∈ (dissolveForDeaths cfg w acts B).members) :
    allianceIdFinal cfg w acts x = some B.id := by
  unfold allianceIdFinal
  rw [hmid]
  dsimp only
  have hmemF : dissolveForDeaths cfg w acts B ∈ ledgerFinal cfg w acts :=
    List.mem_map_of_mem _ hBmem
  have hfind := find?_key_eq_some Alliance.id
    (ledgerFinal_ids_nodup inv) hmemF
  rw [dissolveForDeaths_id] at hfind
  rw [hfind]
  dsimp only
  rw [if_pos ⟨hact, hxm⟩]

/-- Members of mid-tick alliances form duplicate-free lists. -/
theorem ledgerAfter_membersNodup {w : World} {acts : Nat → Action}
    (inv : AllianceInv w) :
    ∀ B ∈ ledgerAfterActions w acts, B.members.Nodup := by
  intro B hB
  rw [ledgerAfterActions, List.mem_append] at hB
  rcases hB with h | h
  · obtain ⟨A, hA, rfl⟩ := List.mem_map.mp h
    unfold applyLeave
    dsimp only
    split
    · exact List.nodup_nil
    · rw [applyMaintain_members]
      exact List.Nodup.filter _ (inv.membersNodup A hA)
  · obtain ⟨_, _, _, _, p, hp, hmem⟩ :=
      newAlliances_shape w (formPairs w acts) w.nextAllianceId B h
    obtain ⟨a, _, hgen⟩ := mem_formPairs hp
    obtain ⟨b, _, rfl, hlt, _⟩ := formPairGen_eq_some hgen
    rw [hmem]
    refine List.nodup_cons.mpr ⟨?_, List.nodup_singleton _⟩
    simp only [List.mem_singleton]
    omega

end Engine

namespace Engine

/-- One tick preserves the alliance bookkeeping invariant. -/
theorem allianceInv_step (cfg : Config) (w : World) (acts : Nat → Action)
    (rnds : Nat → Nat) (inv : AllianceInv w) :
    AllianceInv (stepWorld cfg w acts rnds).world := by
  have hagents_ids : ((stepWorld cfg w acts rnds).world.agents.map Agent.id)
      = w.agents.map Agent.id := by
    rw [stepWorld_agents, List.map_map]
    apply List.map_congr_left
    intro a _
    exact agentAfter_id cfg w acts a
  constructor
  · rw [hagents_ids]
    exact inv.idsNodup
  · intro a' ha' hdead
    rw [stepWorld_agents] at ha'
    obtain ⟨a, ha, rfl⟩ := List.mem_map.mp ha'
    rcases hal : a.alive with _ | _
    · rw [agentAfter_dead cfg w acts a hal] at hdead ⊢
      exact inv.deadNoAlliance a ha hal
    · obtain ⟨hAll, hAlive⟩ := agentAfter_alive_allianceId cfg w acts hal
      rw [hAlive] at hdead
      rw [hAll, hdead]
      simp
  · rw [stepWorld_alliances]
    exact ledgerFinal_ids_nodup inv
  · intro A hA
    rw [stepWorld_alliances, ledgerFinal] at hA
    rw [stepWorld_nextAllianceId]
    obtain ⟨B, hB, rfl⟩ := List.mem_map.mp hA
    rw [dissolveForDeaths_id]
    rw [ledgerAfterActions, List.mem_append] at hB
    rcases hB with h | h
    · obtain ⟨A0, hA0, rfl⟩ := List.mem_map.mp h
      rw [applyLeave_id, applyMaintain_id]
      have := inv.allianceIdsLt A0 hA0
      omega
    · have h2 :=
        (newAlliances_shape w (formPairs w acts) w.nextAllianceId B h).2.1
      omega
  · intro A hA hact
    rw [stepWorld_alliances, ledgerFinal] at hA
    obtain ⟨B, hB, rfl⟩ := List.mem_map.mp hA
    unfold dissolveForDeaths at hact ⊢
    dsimp only at hact ⊢
    split at hact
    · simp at hact
    · rename_i hge
      rw [if_neg hge]
      dsimp only
      omega
  · intro A hA
    rw [stepWorld_alliances, ledgerFinal] at hA
    obtain ⟨B, hB, rfl⟩ := List.mem_map.mp hA
    unfold dissolveForDeaths
    dsimp only
    split
    · exact List.nodup_nil
    · exact List.Nodup.filter _ (ledgerAfter_membersNodup inv B hB)
  · intro A hA
    rw [stepWorld_alliances] at hA
    exact ledgerFinal_inactive_empty inv A hA
  · intro a' ha' i hi
    rw [stepWorld_agents] at ha'
    obtain ⟨a, ha, rfl⟩ := List.mem_map.mp ha'
    rcases hal : a.alive with _ | _
    · rw [agentAfter_dead cfg w acts a hal] at hi ⊢
      rw [inv.deadNoAlliance a ha hal] at hi
      exact Option.noConfusion hi
    · obtain ⟨hAll, _⟩ := agentAfter_alive_allianceId cfg w acts hal
      rw [hAll] at hi
      rcases hs : survives cfg w acts a with _ | _ <;> rw [hs] at hi
      · simp at hi
      · simp only [if_true] at hi
        unfold allianceIdFinal at hi
        split at hi
        · rename_i j hmid
          split at hi
          · rename_i A hfind
            split at hi
            · rename_i hcond
              injection hi with hi
              have hmem := List.mem_of_find?_eq_some hfind
              have hid : A.id = i := by
                have h2 := List.find?_some hfind
                rw [← hi]
                simpa using h2
              refine ⟨A, ?_, hid, hcond.1, ?_⟩
              · rw [stepWorld_alliances]
                exact hmem
              · rw [agentAfter_id]
                exact hcond.2
            · exact Option.noConfusion hi
          · exact Option.noConfusion hi
        · exact Option.noConfusion hi
  · intro A' hA' m hm
    rw [stepWorld_alliances, ledgerFinal] at hA'
    obtain ⟨B, hB, rfl⟩ := List.mem_map.mp hA'
    obtain ⟨hmB, ⟨am, hfam, hsam⟩, hactB⟩ := dissolve_mem_spec hm
    obtain ⟨ham_mem, ham_id⟩ := findAgent_mem hfam
    have hBmem := hB
    have hBact : B.active = true := by
      rcases hBa : B.active with _ | _
      · have h2 := ledgerAfter_inactive_empty inv B hBmem hBa
        rw [h2] at hmB
        exact absurd hmB (List.not_mem_nil m)
      · rfl
    rw [ledgerAfterActions, List.mem_append] at hB
    rcases hB with hOld | hNew
    · obtain ⟨A0, hA0, rfl⟩ := List.mem_map.mp hOld
      obtain ⟨hmA0', hnl, hactOld⟩ := applyLeave_mem_spec hmB
      rw [applyMaintain_members] at hmA0'
      obtain ⟨x, hx_mem, hx_id, hx_all, hx_alive⟩ :=
        inv.memberConsistent A0 hA0 m hmA0'
      have hxam : x = am := findAgent_unique inv.idsNodup hx_mem hx_id hfam
      have hnleave : ¬ acts x.id = Action.leaveAlliance := by
        unfold isLeaver at hnl
        rw [hfam] at hnl
        dsimp only at hnl
        rw [← hxam, hx_alive] at hnl
        simp only [Bool.true_and, decide_eq_false_iff_not] at hnl
        exact hnl
      have hmid : allianceMid w acts x = some A0.id :=
        allianceMid_of_allied inv.idsNodup hx_mem hx_all hnleave
      have hBid : (applyLeave w acts (applyMaintain w acts A0)).id = A0.id :=
        by rw [applyLeave_id, applyMaintain_id]
      have hmid' : allianceMid w acts x =
          some (applyLeave w acts (applyMaintain w acts A0)).id := by
        rw [hBid]
        exact hmid
      have hfin := allianceIdFinal_eq inv hmid' hBmem
        (by rw [hactB]; exact hBact) (by rw [hx_id]; exact hm)
      refine ⟨agentAfter cfg w acts x, ?_, ?_, ?_, ?_⟩
      · rw [stepWorld_agents]
        exact List.mem_map_of_mem _ hx_mem
      · rw [agentAfter_id]
        exact hx_id
      · obtain ⟨hAll, _⟩ := agentAfter_alive_allianceId cfg w acts hx_alive
        rw [hAll]
        have hsx : survives cfg w acts x = true := by
          rw [hxam]
          exact hsam
        rw [hsx]
        simp only [if_true]
        rw [dissolveForDeaths_id]
        exact hfin
      · rw [(agentAfter_alive_allianceId cfg w acts hx_alive).2, hxam]
        exact hsam
    · obtain ⟨_, _, hBactive, _, p, hp, hBmembers⟩ :=
        newAlliances_shape w (formPairs w acts) w.nextAllianceId B hNew
      have hmB2 := hmB
      rw [hBmembers] at hmB2
      obtain ⟨a0, ha0mem, hgen⟩ := mem_formPairs hp
      obtain ⟨b0, hnp0, hpeq, hlt0, hmu0, ha0_alive, _, ha0_none, hb0_mem,
        hb0_alive, _, hb0_none, _⟩ := formPairGen_eq_some hgen
      subst hpeq
      have hm' : m = a0.id ∨ m = b0.id := by simpa using hmB2
      have hx : ∃ x, x ∈ w.agents ∧ x.id = m ∧ x.allianceId = none ∧
          x.alive = true := by
        rcases hm' with rfl | rfl
        · exact ⟨a0, ha0mem, rfl, ha0_none, ha0_alive⟩
        · exact ⟨b0, hb0_mem, rfl, hb0_none, hb0_alive⟩
      obtain ⟨x, hx_mem, hx_id, hx_none, hx_alive⟩ := hx
      have hxam : x = am := findAgent_unique inv.idsNodup hx_mem hx_id hfam
      have hpairIdx : pairIdxFrom m w.nextAllianceId (formPairs w acts) =
          some B.id :=
        newAlliances_member_idx w (formPairs w acts) w.nextAllianceId
          (formPairs_pairwise w acts inv.idsNodup) B hNew m hmB
      have hmid : allianceMid w acts x = some B.id := by
        apply allianceMid_of_pairIdx
        unfold pairIdxOf
        rw [hx_id]
        exact hpairIdx
      have hfin := allianceIdFinal_eq inv hmid hBmem
        (by rw [hactB]; exact hBact) (by rw [hx_id]; exact hm)
      refine ⟨agentAfter cfg w acts x, ?_, ?_, ?_, ?_⟩
      · rw [stepWorld_agents]
        exact List.mem_map_of_mem _ hx_mem
      · rw [agentAfter_id]
        exact hx_id
      · obtain ⟨hAll, _⟩ := agentAfter_alive_allianceId cfg w acts hx_alive
        rw [hAll]
        have hsx : survives cfg w acts x = true := by
          rw [hxam]
          exact hsam
        rw [hsx]
        simp only [if_true]
        rw [dissolveForDeaths_id]
        exact hfin
      · rw [(agentAfter_alive_allianceId cfg w acts hx_alive).2, hxam]
        exact hsam

end Engine

namespace Engine

theorem allianceInv_mkWorld (cfg : Config) (d : InitData)
    (h : ValidInit cfg d) : AllianceInv (mkWorld d) := by
  constructor
  · show ((d.agentStart.map mkAgent).map Agent.id).Nodup
    rw [List.map_map]
    exact h.1
  · intro a ha hdead
    simp only [mkWorld, List.mem_map] at ha
    obtain ⟨t, _, rfl⟩ := ha
    exact absurd hdead (by simp [mkAgent])
  · simp [mkWorld]
  · intro A hA
    exact absurd hA (List.not_mem_nil A)
  · intro A hA
    exact absurd hA (List.not_mem_nil A)
  · intro A hA
    exact absurd hA (List.not_mem_nil A)
  · intro A hA
    exact absurd hA (List.not_mem_nil A)
  · intro a ha i hi
    simp only [mkWorld, List.mem_map] at ha
    obtain ⟨t, _, rfl⟩ := ha
    exact absurd hi (by simp [mkAgent])
  · intro A hA
    exact absurd hA (List.not_mem_nil A)

theorem reachable_allianceInv {cfg : Config} {w : World}
    (h : Reachable cfg w) : AllianceInv w := by
  induction h with
  | init d hd => exact allianceInv_mkWorld cfg d hd
  | step w acts rnds hw ih => exact allianceInv_step cfg w acts rnds ih

/-- A dissolved alliance stays dissolved (same id, still inactive, no
members) through any further tick; fresh ids are never reused, so it can
never become active again. -/
theorem inactive_preserved (cfg : Config) (w : World) (acts : Nat → Action)
    (rnds : Nat → Nat) (inv : AllianceInv w) (A : Alliance)
    (hA : A ∈ w.alliances) (hact : A.active = false) :
    ∃ A' ∈ (stepWorld cfg w acts rnds).world.alliances,
      A'.id = A.id ∧ A'.active = false ∧ A'.members = [] := by
  have hm := inv.inactiveEmpty A hA hact
  have h1 := @oldStage_of_inactive w acts A hm
  have h2 := @dissolve_of_empty cfg w acts
    (applyLeave w acts (applyMaintain w acts A)) h1.2
  refine ⟨dissolveForDeaths cfg w acts
    (applyLeave w acts (applyMaintain w acts A)), ?_, ?_, h2.1, h2.2⟩
  · rw [stepWorld_alliances, ledgerFinal]
    apply List.mem_map_of_mem
    rw [ledgerAfterActions]
    exact List.mem_append_left _ (List.mem_map_of_mem _ hA)
  · rw [dissolveForDeaths_id, applyLeave_id, applyMaintain_id]

/-- Start data with two adjacent cooperative agents. -/
def initEx2 : InitData :=
  { agentStart := [(0, ((0 : Int), (0 : Int)), Personality.cooperative),
                   (1, ((1 : Int), (0 : Int)), Personality.cooperative)],
    obstacles := [], food := [] }

/-- Everybody tries to form an alliance. -/
def actsForm : Nat → Action := fun _ => Action.formAlliance

/-- The world after both example agents form an alliance on tick 0. -/
def worldEx2 : World :=
  (stepWorld cfgEx (mkWorld initEx2) actsForm (fun _ => 0)).world

def agForm0 : Agent := mkAgent (0, ((0 : Int), (0 : Int)),
  Personality.cooperative)

def agForm1 : Agent := mkAgent (1, ((1 : Int), (0 : Int)),
  Personality.cooperative)

theorem healthAfter_agForm0 :
    healthAfter cfgEx (mkWorld initEx2) actsForm agForm0 = 999/10 := by
  unfold healthAfter
  rw [show (moveOutcome cfgEx (mkWorld initEx2) agForm0
    (actsForm agForm0.id)).2.2 = 0 from rfl]
  rw [show isCollectSuccess (mkWorld initEx2) actsForm agForm0 = false from
    by decide]
  rw [show allianceBonusActive cfgEx (mkWorld initEx2) actsForm agForm0 =
    true from by decide]
  rw [show agForm0.health = 100 from rfl]
  unfold clampHealth
  norm_num

theorem healthAfter_agForm1 :
    healthAfter cfgEx (mkWorld initEx2) actsForm agForm1 = 999/10 := by
  unfold healthAfter
  rw [show (moveOutcome cfgEx (mkWorld initEx2) agForm1
    (actsForm agForm1.id)).2.2 = 0 from rfl]
  rw [show isCollectSuccess (mkWorld initEx2) actsForm agForm1 = false from
    by decide]
  rw [show allianceBonusActive cfgEx (mkWorld initEx2) actsForm agForm1 =
    true from by decide]
  rw [show agForm1.health = 100 from rfl]
  unfold clampHealth
  norm_num

theorem survives_agForm0 :
    survives cfgEx (mkWorld initEx2) actsForm agForm0 = true := by
  unfold survives
  rw [Bool.and_eq_true]
  refine ⟨rfl, ?_⟩
  rw [decide_eq_true_eq, healthAfter_agForm0]
  norm_num

theorem survives_agForm1 :
    survives cfgEx (mkWorld initEx2) actsForm agForm1 = true := by
  unfold survives
  rw [Bool.and_eq_true]
  refine ⟨rfl, ?_⟩
  rw [decide_eq_true_eq, healthAfter_agForm1]
  norm_num

/-- Concrete evaluation: the first tick of the example run forms exactly one
alliance between the two agents. -/
theorem worldEx2_alliances :
    worldEx2.alliances = [⟨0, [0, 1], true, 0, 0⟩] := by
  show ledgerFinal cfgEx (mkWorld initEx2) actsForm = _
  unfold ledgerFinal ledgerAfterActions
  rw [show (mkWorld initEx2).alliances = [] from rfl]
  rw [show formPairs (mkWorld initEx2) actsForm = [(0, 1)] from by decide]
  rw [show newAlliances (mkWorld initEx2) (mkWorld initEx2).nextAllianceId
    [(0, 1)] = [⟨0, [0, 1], true, 0, 0⟩] from rfl]
  rw [List.map_nil, List.nil_append, List.map_cons, List.map_nil]
  have hp0 : (match findAgent (mkWorld initEx2) 0 with
      | some a => survives cfgEx (mkWorld initEx2) actsForm a
      | none => false) = true := by
    rw [show findAgent (mkWorld initEx2) 0 = some agForm0 from rfl]
    exact survives_agForm0
  have hp1 : (match findAgent (mkWorld initEx2) 1 with
      | some a => survives cfgEx (mkWorld initEx2) actsForm a
      | none => false) = true := by
    rw [show findAgent (mkWorld initEx2) 1 = some agForm1 from rfl]
    exact survives_agForm1
  unfold dissolveForDeaths
  dsimp only
  simp only [List.filter_cons, List.filter_nil, hp0, hp1, if_true]
  norm_num

end Engine

/-- Claim C4: in every reachable snapshot every active alliance has at least
2 (distinct) members, every agent belongs to at most one alliance, and every
agent's allianceId either refers to an active alliance containing it or is
unset; once dissolved an alliance keeps its id, stays inactive and memberless
through every further tick, and fresh alliance ids are never reused. -/
theorem claim_C4 {cfg : Engine.Config} {w : Engine.World}
    (h : Engine.Reachable cfg w) :
    (∀ A ∈ w.alliances, A.active = true →
       2 ≤ A.members.length ∧ A.members.Nodup) ∧
    (∀ a ∈ w.agents, ∀ A ∈ w.alliances, ∀ B ∈ w.alliances,
       a.id ∈ A.members → a.id ∈ B.members → A = B) ∧
    (∀ a ∈ w.agents, ∀ i, a.allianceId = some i →
       ∃ A ∈ w.alliances, A.id = i ∧ A.active = true ∧ a.id ∈ A.members) ∧
    (∀ (acts : Nat → Engine.Action) (rnds : Nat → Nat),
       ∀ A ∈ w.alliances, A.active = false →
       ∃ A' ∈ (Engine.stepWorld cfg w acts rnds).world.alliances,
         A'.id = A.id ∧ A'.active = false ∧ A'.members = []) := by
  have inv := Engine.reachable_allianceInv h
  refine ⟨?_, ?_, inv.refConsistent, ?_⟩
  · intro A hA hact
    exact ⟨inv.activeMin2 A hA hact, inv.membersNodup A hA⟩
  · intro a ha A hA B hB hmA hmB
    obtain ⟨x, hx_mem, hx_id, hx_all, _⟩ :=
      inv.memberConsistent A hA a.id hmA
    obtain ⟨y, hy_mem, hy_id, hy_all, _⟩ :=
      inv.memberConsistent B hB a.id hmB
    have hxy : x = y :=
      Engine.agent_id_inj inv.idsNodup hx_mem hy_mem
        (hx_id.trans hy_id.symm)
    subst hxy
    rw [hx_all] at hy_all
    have hid : A.id = B.id := Option.some_inj.mp hy_all
    exact List.inj_on_of_nodup_map inv.allianceIdsNodup hA hB hid
  · intro acts rnds A hA hact
    exact Engine.inactive_preserved cfg w acts rnds inv A hA hact

/-- Witness for C4: the concrete alliance formed by the two example agents
in the first tick. -/
theorem claim_C4_witness :
    (⟨0, [0, 1], true, 0, 0⟩ : Engine.Alliance) ∈
      Engine.worldEx2.alliances ∧
    2 ≤ (⟨0, [0, 1], true, 0, 0⟩ : Engine.Alliance).members.length := by
  have hr : Engine.Reachable Engine.cfgEx Engine.worldEx2 :=
    Engine.Reachable.step (Engine.mkWorld Engine.initEx2)
      (fun _ => Engine.Action.formAlliance) (fun _ => 0)
      (Engine.Reachable.init Engine.initEx2 (by decide))
  have hmem : (⟨0, [0, 1], true, 0, 0⟩ : Engine.Alliance) ∈
      Engine.worldEx2.alliances := by
    rw [Engine.worldEx2_alliances]
    exact List.mem_singleton_self _
  exact ⟨hmem, ((claim_C4 hr).1 _ hmem (by decide)).1⟩
